import Mathlib

/-!
Snake game (`script.js`): a shallow embedding of the simulation core

The program keeps its whole session in top-level variables (`score`, `snake`,
`food`, `dx`, `dy`, `nextDx`, `nextDy`, `gameLoopId`, `isGameRunning`,
`currentSpeed`).  They become the fields of `State`; every function of the
script becomes a function on `State`.

The browser is modelled by three more fields: the interval timers that are
currently active, the last timer id handed out by `setInterval`, and the number
of calls made to `Math.random` so far.  The values returned by `Math.random`
are a parameter `rand : Nat → ℚ` (the k-th call returns `rand k`); a JavaScript
number is a double, here the rational it stands for (`IsDouble`), and the
product `Math.random() * TILE_COUNT` is the exact product rounded to the
nearest double, ties to even (`toDouble`).

Writes to the DOM (`textContent`, `classList`) and to the canvas are never read
back by the script, so they are left out of the state; `draw` is the identity
on `State`.
-/

namespace SnakeGame

/-- A grid cell `{ x, y }`. -/
structure Cell where
  x : Int
  y : Int
deriving DecidableEq, Repr

/-- `const TILE_COUNT = 30`. -/
def TILE_COUNT : Int := 30

/-- An active interval timer of the browser: its id and its period. -/
structure Timer where
  id : Nat
  delay : Int
deriving DecidableEq, Repr

/-- The top-level variables of the script, followed by the browser state
(`timers`, `lastTimerId`, `drawn`). -/
structure State where
  score : Int
  snake : List Cell
  food : Cell
  dx : Int
  dy : Int
  nextDx : Int
  nextDy : Int
  gameLoopId : Option Nat
  isGameRunning : Bool
  currentSpeed : Int
  timers : List Timer
  lastTimerId : Nat
  drawn : Nat
deriving DecidableEq, Repr

/-- The state right after the script has been loaded (lines 19-31), in a
browser that has handed out no timer and drawn no random number yet. -/
def loaded : State :=
  { score := 0, snake := [], food := ⟨0, 0⟩, dx := 0, dy := 0, nextDx := 0, nextDy := 0,
    gameLoopId := none, isGameRunning := false, currentSpeed := 100,
    timers := [], lastTimerId := 0, drawn := 0 }

/-- How an event handler can fail to produce a state: `snake[0].x` on an empty
array throws a `TypeError`; the `while (true)` of `placeFood` may keep running
(here: the fuel is used up). -/
inductive Fault where
  | typeError
  | noReturn
deriving DecidableEq, Repr

/-- Browser `setInterval(gameLoop, delay)`: activates a timer under a fresh
non-zero id and returns that id. -/
def setInterval (delay : Int) (s : State) : Nat × State :=
  (s.lastTimerId + 1,
   { s with timers := ⟨s.lastTimerId + 1, delay⟩ :: s.timers, lastTimerId := s.lastTimerId + 1 })

/-- Browser `clearInterval(id)`: deactivates the timer with that id; `null`
and ids of no active timer are ignored. -/
def clearInterval (id : Option Nat) (s : State) : State :=
  match id with
  | none => s
  | some n => { s with timers := s.timers.filter (fun t => t.id != n) }

/-- JavaScript truthiness of `gameLoopId` (`null` and `0` are falsy). -/
def truthy (id : Option Nat) : Bool :=
  match id with
  | none => false
  | some n => n != 0

/-- Round to the nearest integer, ties to the even one. -/
def roundHalfEven (q : ℚ) : Int :=
  if q - ⌊q⌋ < 1 / 2 then ⌊q⌋
  else if 1 / 2 < q - ⌊q⌋ then ⌊q⌋ + 1
  else if ⌊q⌋ % 2 = 0 then ⌊q⌋ else ⌊q⌋ + 1

/-- The binary exponent of a double near `q`: the `e` with
`2^e ≤ |q| < 2^(e+1)`, and -1022 in the subnormal range. -/
def binade (q : ℚ) : Int := max (Int.log 2 |q|) (-1022)

/-- The distance between neighbouring doubles in the binade of `q` (53
significant bits). -/
def ulp (q : ℚ) : ℚ := (2 : ℚ) ^ (binade q - 52)

/-- IEEE 754 binary64 rounding of an exact result: the nearest double, ties to
even (no overflow below 2^1024). -/
def toDouble (q : ℚ) : ℚ := roundHalfEven (q / ulp q) * ulp q

/-- The finite doubles: `±m * 2^e` with `m < 2^53` and `-1074 ≤ e ≤ 971`. -/
def IsDouble (q : ℚ) : Prop :=
  ∃ (m : Nat) (e : Int), m < 2 ^ 53 ∧ -1074 ≤ e ∧ e ≤ 971 ∧ |q| = m * (2 : ℚ) ^ e

/-- `Math.floor(Math.random() * TILE_COUNT)` for the draw `r`: the double
product of `r` and 30, then its floor. -/
def randomTile (r : ℚ) : Int := ⌊toDouble (r * 30)⌋

/-- The inner `for (let part of snake)` loop of `placeFood` (lines 94-100):
is some part of the snake on the cell `food`? -/
def onSnake (snake : List Cell) (food : Cell) : Bool :=
  snake.any (fun part => part.x == food.x && part.y == food.y)

/-- `placeFood` (lines 85-103).  Every round of the `while (true)` loop draws
two random numbers, assigns `food` and leaves the loop when the cell is not on
the snake.  `fuel` bounds the number of rounds; `none` means the loop has not
left within `fuel` rounds. -/
def placeFood (rand : Nat → ℚ) : Nat → State → Option State
  | 0, _ => none
  | fuel + 1, s =>
    let s1 : State :=
      { s with food := ⟨randomTile (rand s.drawn), randomTile (rand (s.drawn + 1))⟩,
               drawn := s.drawn + 2 }
    if onSnake s1.snake s1.food then placeFood rand fuel s1 else some s1

/-- `gameOver` (lines 77-82). -/
def gameOver (s : State) : State :=
  clearInterval s.gameLoopId { s with isGameRunning := false }

/-- `initGame` (lines 46-74). -/
def initGame (rand : Nat → ℚ) (fuel : Nat) (s : State) : Option State :=
  let s1 : State :=
    { s with snake := [⟨10, 10⟩, ⟨10, 11⟩, ⟨10, 12⟩],
             score := 0, dx := 0, dy := -1, nextDx := 0, nextDy := -1 }
  match placeFood rand fuel s1 with
  | none => none
  | some s2 =>
    let s3 : State := { s2 with isGameRunning := true }
    let s4 : State := if truthy s3.gameLoopId then clearInterval s3.gameLoopId s3 else s3
    let r := setInterval s4.currentSpeed s4
    some { r.2 with gameLoopId := some r.1 }

/-- Step 1 of `update` (lines 107-112): take over the buffered direction unless
the per-axis test rejects it. -/
def commit (s : State) : State :=
  if (s.nextDx ≠ 0 ∧ s.nextDx ≠ -s.dx) ∨ (s.nextDy ≠ 0 ∧ s.nextDy ≠ -s.dy) then
    { s with dx := s.nextDx, dy := s.nextDy }
  else s

/-- Step 3 of `update` (line 118): the wall test on the new head. -/
def hitsWall (head : Cell) : Bool :=
  decide (head.x < 0) || decide (head.x ≥ TILE_COUNT) ||
    decide (head.y < 0) || decide (head.y ≥ TILE_COUNT)

/-- Step 4 of `update` (lines 124-129): is the new head on some part of the
snake? -/
def hitsSelf (snake : List Cell) (head : Cell) : Bool :=
  snake.any (fun part => head.x == part.x && head.y == part.y)

/-- `update` (lines 106-145). -/
def update (rand : Nat → ℚ) (fuel : Nat) (s : State) : Except Fault State :=
  let s1 := commit s
  match s1.snake with
  | [] => .error .typeError
  | part0 :: _ =>
    let head : Cell := ⟨part0.x + s1.dx, part0.y + s1.dy⟩
    if hitsWall head then .ok (gameOver s1)
    else if hitsSelf s1.snake head then .ok (gameOver s1)
    else
      let s2 : State := { s1 with snake := head :: s1.snake }
      if head.x = s2.food.x ∧ head.y = s2.food.y then
        match placeFood rand fuel { s2 with score := s2.score + 10 } with
        | some s3 => .ok s3
        | none => .error .noReturn
      else .ok { s2 with snake := s2.snake.dropLast }

/-- `gameLoop` (lines 185-190): `update`, then `draw` when the game is still
running; `draw` does not touch the state. -/
def gameLoop (rand : Nat → ℚ) (fuel : Nat) (s : State) : Except Fault State :=
  update rand fuel s

/-- The `keydown` listener (lines 193-215), as a function of `e.key`. -/
def keydown (key : String) (s : State) : State :=
  if key = "ArrowUp" then
    if s.dy ≠ 1 then { s with nextDx := 0, nextDy := -1 } else s
  else if key = "ArrowDown" then
    if s.dy ≠ -1 then { s with nextDx := 0, nextDy := 1 } else s
  else if key = "ArrowLeft" then
    if s.dx ≠ 1 then { s with nextDx := -1, nextDy := 0 } else s
  else if key = "ArrowRight" then
    if s.dx ≠ -1 then { s with nextDx := 1, nextDy := 0 } else s
  else s

/-- `showMainMenu` (lines 234-246). -/
def showMainMenu (s : State) : State :=
  let s1 : State := { s with isGameRunning := false }
  if truthy s1.gameLoopId then clearInterval s1.gameLoopId s1 else s1

/-- The click listener of `headerMenuBtn` (lines 226-230). -/
def headerMenuClick (s : State) : State :=
  let s1 : State := { s with isGameRunning := false }
  let s2 : State := if truthy s1.gameLoopId then clearInterval s1.gameLoopId s1 else s1
  showMainMenu s2

/-- The click listener of a difficulty button (lines 35-42); `speed` is the
value of `parseInt(btn.dataset.speed)`. -/
def difficultyClick (speed : Int) (s : State) : State :=
  { s with currentSpeed := speed }

/-- The interval timer stored in `gameLoopId` is active, so the browser may
call `gameLoop`. -/
def timerActive (s : State) : Bool :=
  match s.gameLoopId with
  | none => false
  | some n => s.timers.any (fun t => t.id == n)

/-- One event of a running session: a key press, or a tick of the interval
timer (which calls `gameLoop` and needs the timer to be active). -/
inductive Step (rand : Nat → ℚ) : State → State → Prop where
  | key (s : State) (k : String) : Step rand s (keydown k s)
  | tick (s s' : State) (fuel : Nat) :
      timerActive s = true → gameLoop rand fuel s = .ok s' → Step rand s s'

/-- Any sequence of key events and ticks. -/
def Steps (rand : Nat → ℚ) : State → State → Prop :=
  Relation.ReflTransGen (Step rand)

/-- The states reachable from a call of `initGame` (in any prior state) by key
events and ticks. -/
def Reachable (rand : Nat → ℚ) (s : State) : Prop :=
  ∃ (s0 si : State) (fuel : Nat), initGame rand fuel s0 = some si ∧ Steps rand si s

/-- The new head computed by step 2 of `update` (line 115) for a snake whose
first part is `part0`. -/
def newHead (s : State) (part0 : Cell) : Cell :=
  ⟨part0.x + (commit s).dx, part0.y + (commit s).dy⟩

/-- The new head is inside the grid: both coordinates lie in `[0, 30)`. -/
def inGrid (c : Cell) : Prop := (0 ≤ c.x ∧ c.x < 30) ∧ (0 ≤ c.y ∧ c.y < 30)

instance (c : Cell) : Decidable (inGrid c) := by unfold inGrid; infer_instance

/-- The tick ends the game: the new head leaves the grid or lands on a part of
the snake as it is before the move. -/
def Collides (s : State) (part0 : Cell) : Prop :=
  ¬ inGrid (newHead s part0) ∨ newHead s part0 ∈ s.snake

instance (s : State) (part0 : Cell) : Decidable (Collides s part0) := by
  unfold Collides; infer_instance

/-- The tick eats the food: it does not end the game and the new head is the
food cell. -/
def Eats (s : State) (part0 : Cell) : Prop :=
  ¬ Collides s part0 ∧ newHead s part0 = s.food

instance (s : State) (part0 : Cell) : Decidable (Eats s part0) := by
  unfold Eats; infer_instance

/-- A running session with the given snake and food, heading `(dx, dy)` with
the same direction buffered, timer 1 active. -/
def scene (snake : List Cell) (food : Cell) (dx dy : Int) : State :=
  { score := 0, snake := snake, food := food, dx := dx, dy := dy, nextDx := dx, nextDy := dy,
    gameLoopId := some 1, isGameRunning := true, currentSpeed := 100,
    timers := [⟨1, 100⟩], lastTimerId := 1, drawn := 2 }

/-- Head at (5,5), tail at (6,5), heading right: the next cell is the tail's. -/
def tailChase : State := scene [⟨5, 5⟩, ⟨5, 6⟩, ⟨6, 6⟩, ⟨6, 5⟩] ⟨0, 0⟩ 1 0

/-- The initial snake heading up, food away from the cell ahead. -/
def upNoFood : State := scene [⟨10, 10⟩, ⟨10, 11⟩, ⟨10, 12⟩] ⟨3, 4⟩ 0 (-1)

/-- The initial snake heading up, food on the cell ahead. -/
def upFood : State := scene [⟨10, 10⟩, ⟨10, 11⟩, ⟨10, 12⟩] ⟨10, 9⟩ 0 (-1)

/-- A snake at the left edge heading left. -/
def leftEdge : State := scene [⟨0, 10⟩, ⟨1, 10⟩, ⟨2, 10⟩] ⟨3, 4⟩ (-1) 0

/-- Random draws that are all `1/2`: every sampled cell is (15, 15). -/
def halves : Nat → ℚ := fun _ => 1 / 2

/-- The direction set of the data model: the four unit steps and `(0, 0)`. -/
def directions : List (Int × Int) := [(0, -1), (0, 1), (-1, 0), (1, 0), (0, 0)]

/-- The four unit steps. -/
def unitSteps : List (Int × Int) := [(0, -1), (0, 1), (-1, 0), (1, 0)]

/-- The commit of the direction buffer as the specification words it: if
pending is non-zero and not a reversal of committed, committed becomes pending;
otherwise committed is unchanged. -/
def commitSpec (s : State) : State :=
  if (s.nextDx, s.nextDy) ≠ (0, 0) ∧ (s.nextDx, s.nextDy) ≠ (-s.dx, -s.dy) then
    { s with dx := s.nextDx, dy := s.nextDy }
  else s

/-- The direction requested by a key: the `case` labels of the `switch` in the
`keydown` listener with the values their branches assign. -/
def arrow (key : String) : Option (Int × Int) :=
  if key = "ArrowUp" then some (0, -1)
  else if key = "ArrowDown" then some (0, 1)
  else if key = "ArrowLeft" then some (-1, 0)
  else if key = "ArrowRight" then some (1, 0)
  else none

/-- A sequence of key events, oldest first. -/
def keydowns (keys : List String) (s : State) : State :=
  keys.foldl (fun st k => keydown k st) s

/-- The snake invariant: no cell twice, at least three parts. -/
def SnakeInv (s : State) : Prop := s.snake.Nodup ∧ 3 ≤ s.snake.length

/-- The state `initGame` produces from `loaded` when every draw is `1/2`. -/
def afterInit : State :=
  { score := 0, snake := [⟨10, 10⟩, ⟨10, 11⟩, ⟨10, 12⟩], food := ⟨15, 15⟩,
    dx := 0, dy := -1, nextDx := 0, nextDy := -1,
    gameLoopId := some 1, isGameRunning := true, currentSpeed := 100,
    timers := [⟨1, 100⟩], lastTimerId := 1, drawn := 2 }

/-- The state after `afterInit`, the key Left and one tick. -/
def afterTurn : State :=
  { afterInit with snake := [⟨9, 10⟩, ⟨10, 10⟩, ⟨10, 11⟩],
                   dx := -1, dy := 0, nextDx := -1, nextDy := 0 }

/-- The cell sampled in round `k` (from 0) of a `placeFood` loop that starts
when `d` random numbers have been drawn: the pair
`(Math.floor(r1 * 30), Math.floor(r2 * 30))` of that round's two draws. -/
def sample (rand : Nat → ℚ) (d k : Nat) : Cell :=
  ⟨randomTile (rand (d + 2 * k)), randomTile (rand (d + 2 * k + 1))⟩

/-- Every draw of `Math.random` is a double in `[0, 1)`. -/
def UnitDraws (rand : Nat → ℚ) : Prop := ∀ n, IsDouble (rand n) ∧ 0 ≤ rand n ∧ rand n < 1

/-- A double in `[0, 1)` whose product with 30 has floor `j` (for `j` from 0
to 29): the next multiple of 1/256 above `j / 30`. -/
def tileDraw (j : Int) : ℚ := (((128 * j) / 15 + 1 : Int) : ℚ) / 256

/-- Draws that sample the cell `c` in the round that starts at draw `d`. -/
def aimAt (d : Nat) (c : Cell) : Nat → ℚ :=
  fun n => if n = d then tileDraw c.x else tileDraw c.y

/-- The snake covers the whole 30x30 grid. -/
def FullGrid (snake : List Cell) : Prop := ∀ c : Cell, inGrid c → c ∈ snake

/-- All 900 cells of the grid, column by column. -/
def allCells : List Cell :=
  (List.range 30).flatMap
    (fun x : Nat => (List.range 30).map (fun y : Nat => Cell.mk (Int.ofNat x) (Int.ofNat y)))

/-- Draws whose first two rounds (draws 2 to 5) sample (10,10) and then
(15,15). -/
def busyThenFree : Nat → ℚ := fun n => if n < 4 then 11 / 32 else 1 / 2

/-- A session state whose snake covers the whole grid. -/
def crowded : State := scene allCells ⟨0, 0⟩ 1 0

/-- The snake `initGame` creates (lines 48-52). -/
def startSnake : List Cell := [⟨10, 10⟩, ⟨10, 11⟩, ⟨10, 12⟩]

/-- The timers left active by step 4 of `initGame` before it starts the new
one: `if (gameLoopId) clearInterval(gameLoopId)`. -/
def timersAfterClear (s : State) : List Timer :=
  if truthy s.gameLoopId then (clearInterval s.gameLoopId s).timers else s.timers

/-- The state `initGame` returns from the prior state `s0` when its food
placement leaves the loop in round `k`. -/
def started (rand : Nat → ℚ) (s0 : State) (k : Nat) : State :=
  { score := 0, snake := startSnake, food := sample rand s0.drawn k,
    dx := 0, dy := -1, nextDx := 0, nextDy := -1,
    gameLoopId := some (s0.lastTimerId + 1), isGameRunning := true,
    currentSpeed := s0.currentSpeed,
    timers := ⟨s0.lastTimerId + 1, s0.currentSpeed⟩ :: timersAfterClear s0,
    lastTimerId := s0.lastTimerId + 1, drawn := s0.drawn + 2 * (k + 1) }

/-- A prior state in the middle of another session: a long snake, a score, a
running timer at another speed. -/
def midGame : State :=
  { score := 40, snake := [⟨3, 3⟩, ⟨3, 4⟩, ⟨3, 5⟩, ⟨4, 5⟩, ⟨5, 5⟩, ⟨5, 6⟩, ⟨5, 7⟩],
    food := ⟨20, 2⟩, dx := 0, dy := -1, nextDx := 1, nextDy := 0,
    gameLoopId := some 3, isGameRunning := true, currentSpeed := 50,
    timers := [⟨3, 150⟩], lastTimerId := 3, drawn := 12 }

/-- The direction invariant: both slots hold unit steps and the pending
direction is not the exact reverse of the committed one. -/
def DirInv (s : State) : Prop :=
  (s.dx, s.dy) ∈ unitSteps ∧ (s.nextDx, s.nextDy) ∈ unitSteps ∧
    (s.nextDx, s.nextDy) ≠ (-s.dx, -s.dy)

/-- The events the page reacts to: the start and restart buttons, the two
menu buttons, a key press, a tick of the interval timer, a difficulty button
(with the parsed value of its `data-speed`). -/
inductive Event where
  | start
  | restart
  | menu
  | headerMenu
  | key (k : String)
  | tick
  | difficulty (speed : Int)
deriving DecidableEq, Repr

/-- The listener the script has registered for an event (lines 34-43, 193-230).
A tick only happens while the timer stored in `gameLoopId` is active.  `none`
means the event does not happen, or its listener does not return a state. -/
def handle (rand : Nat → ℚ) (fuel : Nat) (e : Event) (s : State) : Option State :=
  match e with
  | .start => initGame rand fuel s
  | .restart => initGame rand fuel s
  | .menu => some (showMainMenu s)
  | .headerMenu => some (headerMenuClick s)
  | .key k => some (keydown k s)
  | .tick =>
    if timerActive s then
      match gameLoop rand fuel s with
      | .ok s' => some s'
      | .error _ => none
    else none
  | .difficulty speed => some (difficultyClick speed s)

/-- A sequence of events, oldest first. -/
def play (rand : Nat → ℚ) (fuel : Nat) : List Event → State → Option State
  | [], s => some s
  | e :: es, s =>
    match handle rand fuel e s with
    | some s' => play rand fuel es s'
    | none => none

/-- The states the page can be in: those reached from the loaded script by
any sequence of events. -/
inductive PageReachable (rand : Nat → ℚ) : State → Prop where
  | loaded : PageReachable rand loaded
  | step (s s' : State) (e : Event) (fuel : Nat) :
      PageReachable rand s → handle rand fuel e s = some s' → PageReachable rand s'

/-- The timer invariant: `gameLoopId` is never 0, every active timer is the
one stored in `gameLoopId`, exactly one timer is active while the game is
running and none while it is not. -/
def TimerInv (s : State) : Prop :=
  (∀ n, s.gameLoopId = some n → n ≠ 0) ∧
  (∀ t ∈ s.timers, s.gameLoopId = some t.id) ∧
  (s.isGameRunning = true → ∃ t, s.timers = [t]) ∧
  (s.isGameRunning = false → s.timers = [])

/-- Start, turn left, and tick until the snake runs into the left wall: ten
moves and the tick that ends the game. -/
def crashTrace : List Event :=
  [.start, .key "ArrowLeft"] ++ List.replicate 11 .tick

/-- The game-over state at the end of `crashTrace`. -/
def crashed : State :=
  { score := 0, snake := [⟨0, 10⟩, ⟨1, 10⟩, ⟨2, 10⟩], food := ⟨15, 15⟩,
    dx := -1, dy := 0, nextDx := -1, nextDy := 0,
    gameLoopId := some 1, isGameRunning := false, currentSpeed := 100,
    timers := [], lastTimerId := 1, drawn := 2 }

/-! ## Basic facts about the embedding -/

theorem onSnake_iff (snake : List Cell) (c : Cell) : onSnake snake c = true ↔ c ∈ snake := by
  unfold onSnake
  rw [List.any_eq_true]
  constructor
  · rintro ⟨p, hp, h⟩
    simp only [Bool.and_eq_true, beq_iff_eq] at h
    have hpc : p = c := by
      cases p; cases c; simp only [Cell.mk.injEq]; exact h
    exact hpc ▸ hp
  · intro h
    exact ⟨c, h, by simp⟩

theorem hitsSelf_iff (snake : List Cell) (c : Cell) : hitsSelf snake c = true ↔ c ∈ snake := by
  unfold hitsSelf
  rw [List.any_eq_true]
  constructor
  · rintro ⟨p, hp, h⟩
    simp only [Bool.and_eq_true, beq_iff_eq] at h
    have hpc : p = c := by
      cases p; cases c; simp only [Cell.mk.injEq]; exact ⟨h.1.symm, h.2.symm⟩
    exact hpc ▸ hp
  · intro h
    exact ⟨c, h, by simp⟩

theorem hitsWall_iff (c : Cell) :
    hitsWall c = true ↔ (¬ (0 ≤ c.x ∧ c.x < 30) ∨ ¬ (0 ≤ c.y ∧ c.y < 30)) := by
  unfold hitsWall TILE_COUNT
  simp only [Bool.or_eq_true, decide_eq_true_eq]
  omega

theorem commit_frame (s : State) :
    (commit s).snake = s.snake ∧ (commit s).food = s.food ∧ (commit s).score = s.score ∧
    (commit s).nextDx = s.nextDx ∧ (commit s).nextDy = s.nextDy ∧
    (commit s).gameLoopId = s.gameLoopId ∧ (commit s).isGameRunning = s.isGameRunning ∧
    (commit s).currentSpeed = s.currentSpeed ∧ (commit s).timers = s.timers ∧
    (commit s).lastTimerId = s.lastTimerId ∧ (commit s).drawn = s.drawn := by
  unfold commit
  split <;> simp

/-- What `placeFood` leaves behind when it returns: only `food` and the count
of random draws differ, and the food cell is off the snake. -/
theorem placeFood_some (rand : Nat → ℚ) (fuel : Nat) (s s' : State)
    (h : placeFood rand fuel s = some s') :
    ∃ (c : Cell) (n : Nat), s' = { s with food := c, drawn := n } ∧ onSnake s.snake c = false := by
  induction fuel generalizing s with
  | zero => simp [placeFood] at h
  | succ k ih =>
    simp only [placeFood] at h
    split at h
    · obtain ⟨c, n, hs', hc⟩ := ih _ h
      exact ⟨c, n, by simpa using hs', by simpa using hc⟩
    · rename_i hfree
      simp only [Option.some.injEq] at h
      exact ⟨_, _, h.symm, by simpa using hfree⟩

theorem gameOver_frame (s : State) :
    (gameOver s).snake = s.snake ∧ (gameOver s).food = s.food ∧ (gameOver s).score = s.score ∧
    (gameOver s).dx = s.dx ∧ (gameOver s).dy = s.dy ∧
    (gameOver s).nextDx = s.nextDx ∧ (gameOver s).nextDy = s.nextDy ∧
    (gameOver s).isGameRunning = false := by
  unfold gameOver clearInterval
  cases s.gameLoopId <;> simp

/-- The three ways `update` goes on a non-empty snake. -/
theorem update_gameOver (rand : Nat → ℚ) (fuel : Nat) (s : State) (part0 : Cell)
    (rest : List Cell) (hs : s.snake = part0 :: rest)
    (h : hitsWall (newHead s part0) = true ∨ newHead s part0 ∈ s.snake) :
    update rand fuel s = .ok (gameOver (commit s)) := by
  have hc : (commit s).snake = part0 :: rest := by rw [(commit_frame s).1, hs]
  unfold update
  simp only [hc]
  rcases h with h | h
  · simp only [newHead] at h
    simp [h]
  · have h2 : hitsSelf (part0 :: rest) (newHead s part0) = true := by
      rw [hitsSelf_iff, ← hs]; exact h
    simp only [newHead] at h2
    simp [h2]

theorem update_move (rand : Nat → ℚ) (fuel : Nat) (s : State) (part0 : Cell)
    (rest : List Cell) (hs : s.snake = part0 :: rest)
    (hw : hitsWall (newHead s part0) = false) (hb : newHead s part0 ∉ s.snake)
    (hf : newHead s part0 ≠ s.food) :
    update rand fuel s =
      .ok { commit s with snake := newHead s part0 :: s.snake.dropLast } := by
  have hc : (commit s).snake = part0 :: rest := by rw [(commit_frame s).1, hs]
  have h2 : hitsSelf (part0 :: rest) (newHead s part0) = false := by
    rw [← Bool.not_eq_true, hitsSelf_iff, ← hs]; exact hb
  have h3 : ¬ ((newHead s part0).x = (commit s).food.x ∧
      (newHead s part0).y = (commit s).food.y) := by
    rw [(commit_frame s).2.1]
    intro h
    apply hf
    cases hn : newHead s part0
    cases hfd : s.food
    rw [hn, hfd] at h
    simp only [Cell.mk.injEq]
    exact h
  unfold update
  simp only [hc]
  simp only [newHead] at hw h2 h3
  simp [hw, h2, h3, hs, newHead]

theorem update_eat (rand : Nat → ℚ) (fuel : Nat) (s : State) (part0 : Cell)
    (rest : List Cell) (hs : s.snake = part0 :: rest)
    (hw : hitsWall (newHead s part0) = false) (hb : newHead s part0 ∉ s.snake)
    (hf : newHead s part0 = s.food) :
    update rand fuel s =
      match placeFood rand fuel
          { commit s with snake := newHead s part0 :: s.snake, score := s.score + 10 } with
      | some s3 => .ok s3
      | none => .error .noReturn := by
  have hc : (commit s).snake = part0 :: rest := by rw [(commit_frame s).1, hs]
  have h2 : hitsSelf (part0 :: rest) (newHead s part0) = false := by
    rw [← Bool.not_eq_true, hitsSelf_iff, ← hs]; exact hb
  have h3 : (newHead s part0).x = (commit s).food.x ∧
      (newHead s part0).y = (commit s).food.y := by
    rw [(commit_frame s).2.1, hf]; exact ⟨rfl, rfl⟩
  unfold update
  simp only [hc]
  simp only [newHead] at hw h2 h3
  rw [if_neg (by simp [hw]), if_neg (by simp [h2]), if_pos h3]
  simp only [newHead, hs, (commit_frame s).2.2.1]

theorem hitsWall_false_iff (c : Cell) : hitsWall c = false ↔ inGrid c := by
  rw [← Bool.not_eq_true, hitsWall_iff]
  unfold inGrid
  tauto

theorem collides_iff (s : State) (part0 : Cell) :
    Collides s part0 ↔ (hitsWall (newHead s part0) = true ∨ newHead s part0 ∈ s.snake) := by
  unfold Collides
  rw [← hitsWall_false_iff, Bool.not_eq_false]

theorem not_collides (s : State) (part0 : Cell) (h : ¬ Collides s part0) :
    hitsWall (newHead s part0) = false ∧ newHead s part0 ∉ s.snake := by
  rw [collides_iff, not_or, Bool.not_eq_true] at h
  exact h

/-! ## Doubles and the sampled cells -/

theorem roundHalfEven_err (q : ℚ) : |(roundHalfEven q : ℚ) - q| ≤ 1 / 2 := by
  have h1 := Int.floor_le q
  have h2 := Int.lt_floor_add_one q
  unfold roundHalfEven
  rw [abs_le]
  split_ifs <;> push_cast <;> constructor <;> linarith

theorem roundHalfEven_intCast (n : Int) : roundHalfEven (n : ℚ) = n := by
  unfold roundHalfEven
  simp

theorem roundHalfEven_nonneg (q : ℚ) (h : 0 ≤ q) : 0 ≤ roundHalfEven q := by
  have h0 : 0 ≤ ⌊q⌋ := Int.floor_nonneg.2 h
  unfold roundHalfEven
  split_ifs <;> omega

theorem binade_eq (q : ℚ) (e : Int) (h1 : (2 : ℚ) ^ e ≤ |q|) (h2 : |q| < (2 : ℚ) ^ (e + 1))
    (he : -1022 ≤ e) : binade q = e := by
  have hpos : 0 < |q| := lt_of_lt_of_le (by positivity) h1
  have hle : e ≤ Int.log 2 |q| := by
    rw [← Int.zpow_le_iff_le_log (by norm_num) hpos]
    exact_mod_cast h1
  have hlt : Int.log 2 |q| < e + 1 := by
    rw [← Int.lt_zpow_iff_log_lt (by norm_num) hpos]
    exact_mod_cast h2
  unfold binade
  omega

theorem binade_le (q : ℚ) (e : Int) (h2 : |q| < (2 : ℚ) ^ (e + 1)) (he : 0 ≤ e) :
    binade q ≤ e := by
  unfold binade
  rcases eq_or_lt_of_le (abs_nonneg q) with h0 | hpos
  · rw [← h0, Int.log_of_right_le_zero 2 (le_refl _)]
    omega
  · have hlt : Int.log 2 |q| < e + 1 := by
      rw [← Int.lt_zpow_iff_log_lt (by norm_num) hpos]
      exact_mod_cast h2
    omega

theorem ulp_pos (q : ℚ) : 0 < ulp q := by
  unfold ulp
  positivity

theorem toDouble_err (q : ℚ) : |toDouble q - q| ≤ ulp q / 2 := by
  have hu := ulp_pos q
  have h := roundHalfEven_err (q / ulp q)
  unfold toDouble
  have : (roundHalfEven (q / ulp q) : ℚ) * ulp q - q
      = ((roundHalfEven (q / ulp q) : ℚ) - q / ulp q) * ulp q := by
    field_simp
  rw [this, abs_mul, abs_of_pos hu]
  calc |(roundHalfEven (q / ulp q) : ℚ) - q / ulp q| * ulp q ≤ 1 / 2 * ulp q :=
        mul_le_mul_of_nonneg_right h hu.le
    _ = ulp q / 2 := by ring

theorem toDouble_nonneg (q : ℚ) (h : 0 ≤ q) : 0 ≤ toDouble q := by
  unfold toDouble
  have hu := ulp_pos q
  have := roundHalfEven_nonneg (q / ulp q) (div_nonneg h hu.le)
  have h2 : (0 : ℚ) ≤ (roundHalfEven (q / ulp q) : ℚ) := by exact_mod_cast this
  positivity

theorem ulp_le_small (q : ℚ) (h : |q| < 32) : ulp q ≤ (2 : ℚ) ^ (-48 : Int) := by
  have hb : binade q ≤ 4 := binade_le q 4 (by norm_num; exact h) (by norm_num)
  unfold ulp
  apply zpow_le_zpow_right₀ (by norm_num)
  omega

theorem isDouble_lt_one (r : ℚ) (hd : IsDouble r) (h0 : 0 ≤ r) (h1 : r < 1) :
    r ≤ 1 - (2 : ℚ) ^ (-53 : Int) := by
  obtain ⟨m, e, hm, -, -, hr⟩ := hd
  rw [abs_of_nonneg h0] at hr
  by_cases he : e ≤ -53
  · have hm' : (m : ℚ) ≤ 2 ^ 53 - 1 := by
      have : (m : ℚ) + 1 ≤ 2 ^ 53 := by exact_mod_cast (show m + 1 ≤ 2 ^ 53 by omega)
      linarith
    have hp : (2 : ℚ) ^ e ≤ (2 : ℚ) ^ (-53 : Int) := zpow_le_zpow_right₀ (by norm_num) he
    have hp0 : (0 : ℚ) < (2 : ℚ) ^ e := by positivity
    calc r = m * (2 : ℚ) ^ e := hr
      _ ≤ (2 ^ 53 - 1) * (2 : ℚ) ^ (-53 : Int) := by
          apply mul_le_mul hm' hp hp0.le (by norm_num)
      _ = 1 - (2 : ℚ) ^ (-53 : Int) := by norm_num
  · push_neg at he
    obtain ⟨k, hk⟩ : ∃ k : Nat, e + 53 = k := ⟨(e + 53).toNat, by omega⟩
    have hr2 : r * 2 ^ 53 = ((m * 2 ^ k : Nat) : ℚ) := by
      rw [hr]
      push_cast
      have : (2 : ℚ) ^ e * 2 ^ 53 = 2 ^ k := by
        rw [← zpow_natCast (2 : ℚ) k, ← hk, zpow_add₀ (by norm_num)]
        norm_num
      rw [mul_assoc, this]
    have hlt : ((m * 2 ^ k : Nat) : ℚ) < 2 ^ 53 := by
      rw [← hr2]
      have : r * 2 ^ 53 < 1 * 2 ^ 53 := mul_lt_mul_of_pos_right h1 (by positivity)
      simpa using this
    have hlt' : m * 2 ^ k < 2 ^ 53 := by exact_mod_cast hlt
    have hle : ((m * 2 ^ k : Nat) : ℚ) ≤ 2 ^ 53 - 1 := by
      have : ((m * 2 ^ k : Nat) : ℚ) + 1 ≤ 2 ^ 53 := by
        exact_mod_cast (show m * 2 ^ k + 1 ≤ 2 ^ 53 by omega)
      linarith
    rw [← hr2] at hle
    have : r ≤ (2 ^ 53 - 1) / 2 ^ 53 := by
      rw [le_div_iff₀ (by positivity)]
      exact hle
    calc r ≤ (2 ^ 53 - 1) / 2 ^ 53 := this
      _ = 1 - (2 : ℚ) ^ (-53 : Int) := by norm_num

theorem randomTile_bounds (r : ℚ) (hd : IsDouble r) (h0 : 0 ≤ r) (h1 : r < 1) :
    0 ≤ randomTile r ∧ randomTile r < 30 := by
  have hr := isDouble_lt_one r hd h0 h1
  have hq0 : 0 ≤ r * 30 := by positivity
  have hq1 : r * 30 ≤ 30 - 30 * (2 : ℚ) ^ (-53 : Int) := by linarith
  have habs : |r * 30| < 32 := by
    rw [abs_of_nonneg hq0]
    have : (0 : ℚ) < (2 : ℚ) ^ (-53 : Int) := by positivity
    linarith
  have herr := toDouble_err (r * 30)
  have hulp := ulp_le_small (r * 30) habs
  rw [abs_le] at herr
  unfold randomTile
  constructor
  · exact Int.floor_nonneg.2 (toDouble_nonneg _ hq0)
  · rw [Int.floor_lt]
    push_cast
    have h48 : (2 : ℚ) ^ (-48 : Int) = 32 * (2 : ℚ) ^ (-53 : Int) := by norm_num
    have : (0 : ℚ) < (2 : ℚ) ^ (-53 : Int) := by positivity
    linarith [herr.2]

theorem roundHalfEven_eq (q : ℚ) (n : Int) (h1 : (n : ℚ) - 1 / 2 < q)
    (h2 : q < (n : ℚ) + 1 / 2) : roundHalfEven q = n := by
  have h := roundHalfEven_err q
  rw [abs_le] at h
  have ha : ((roundHalfEven q : Int) : ℚ) < (n : ℚ) + 1 := by linarith [h.2]
  have hb : (n : ℚ) - 1 < ((roundHalfEven q : Int) : ℚ) := by linarith [h.1]
  have ha' : roundHalfEven q < n + 1 := by exact_mod_cast ha
  have hb' : n - 1 < roundHalfEven q := by exact_mod_cast hb
  omega

theorem toDouble_exact (q : ℚ) (n : Int) (h : q / ulp q = (n : ℚ)) : toDouble q = q := by
  unfold toDouble
  rw [h, roundHalfEven_intCast, ← h]
  exact div_mul_cancel₀ q (ulp_pos q).ne'

theorem ulp_eq (q : ℚ) (e : Int) (h1 : (2 : ℚ) ^ e ≤ |q|) (h2 : |q| < (2 : ℚ) ^ (e + 1))
    (he : -1022 ≤ e) : ulp q = (2 : ℚ) ^ (e - 52) := by
  unfold ulp
  rw [binade_eq q e h1 h2 he]

theorem binade_le_of_isDouble (q : ℚ) (m : Nat) (e : Int) (hm : m < 2 ^ 53)
    (he : -1074 ≤ e) (hq : |q| = m * (2 : ℚ) ^ e) (hpos : 0 < |q|) : binade q ≤ e + 52 := by
  have hlt : |q| < (2 : ℚ) ^ (e + 53) := by
    rw [hq, zpow_add₀ (by norm_num : (2 : ℚ) ≠ 0), mul_comm ((2 : ℚ) ^ e)]
    apply mul_lt_mul_of_pos_right _ (by positivity)
    exact_mod_cast hm
  have hlog : Int.log 2 |q| < e + 53 := by
    rw [← Int.lt_zpow_iff_log_lt (by norm_num) hpos]
    exact_mod_cast hlt
  unfold binade
  omega

/-- Rounding leaves a double as it is. -/
theorem toDouble_of_isDouble (q : ℚ) (h : IsDouble q) : toDouble q = q := by
  obtain ⟨m, e, hm, he, -, hq⟩ := h
  rcases eq_or_lt_of_le (abs_nonneg q) with h0 | hpos
  · have hq0 : q = 0 := abs_eq_zero.1 h0.symm
    rw [hq0]
    exact toDouble_exact 0 0 (by simp)
  · have hb := binade_le_of_isDouble q m e hm he hq hpos
    obtain ⟨k, hk⟩ : ∃ k : Nat, e + 52 - binade q = k := ⟨(e + 52 - binade q).toNat, by omega⟩
    have hpow : (2 : ℚ) ^ e / ulp q = (2 : ℚ) ^ k := by
      unfold ulp
      rw [← zpow_sub₀ (by norm_num : (2 : ℚ) ≠ 0), ← zpow_natCast (2 : ℚ) k, ← hk]
      congr 1
      ring
    rcases abs_choice q with hs | hs
    · rw [hs] at hq
      apply toDouble_exact q ((m : Int) * 2 ^ k)
      have h1 : q / ulp q = (m : ℚ) * (2 : ℚ) ^ e / ulp q :=
        congrArg (fun x => x / ulp q) hq
      rw [h1, mul_div_assoc, hpow]
      push_cast
      ring
    · rw [hs] at hq
      have hq' : q = -(m * (2 : ℚ) ^ e) := by linarith
      apply toDouble_exact q (-((m : Int) * 2 ^ k))
      have h1 : q / ulp q = -((m : ℚ) * (2 : ℚ) ^ e) / ulp q :=
        congrArg (fun x => x / ulp q) hq'
      rw [h1, neg_div, mul_div_assoc, hpow]
      push_cast
      ring

/-- The draw `1/2` samples tile 15: the product 15 is a double. -/
theorem randomTile_half : randomTile (1 / 2) = 15 := by
  have hu : ulp 15 = (2 : ℚ) ^ ((3 : Int) - 52) :=
    ulp_eq 15 3 (by norm_num [abs_of_pos]) (by norm_num [abs_of_pos]) (by norm_num)
  have hx : toDouble 15 = 15 :=
    toDouble_exact 15 (15 * 2 ^ 49) (by rw [hu]; norm_num)
  unfold randomTile
  have h15 : (1 / 2 : ℚ) * 30 = 15 := by norm_num
  rw [h15, hx]
  exact Int.floor_intCast 15

/-- The product stays clear of the two neighbouring integers by more than the
rounding error, so its floor is `j`. -/
theorem randomTile_of_mem (r : ℚ) (j : Int) (h0 : 0 ≤ j)
    (h1 : (j : ℚ) + 1 / 256 ≤ r * 30) (h2 : r * 30 ≤ (j : ℚ) + 255 / 256) (h3 : j < 30) :
    randomTile r = j := by
  have hj0 : (0 : ℚ) ≤ (j : ℚ) := by exact_mod_cast h0
  have hj3 : (j : ℚ) ≤ 29 := by exact_mod_cast (show j ≤ 29 by omega)
  have habs : |r * 30| < 32 := by
    rw [abs_of_nonneg (by linarith)]
    linarith
  have herr := toDouble_err (r * 30)
  have hulp := ulp_le_small (r * 30) habs
  have h48 : (2 : ℚ) ^ (-48 : Int) ≤ 1 / 512 := by norm_num
  have hu2 : ulp (r * 30) ≤ 1 / 512 := le_trans hulp h48
  rw [abs_le] at herr
  obtain ⟨hlo, hhi⟩ := herr
  unfold randomTile
  rw [Int.floor_eq_iff]
  constructor
  · linarith
  · linarith

/-- The rounding of the product is what the program sees: at the doubles
nearest to 0.7, 0.6333333333333333 and 0.3333333333333333 the exact products
lie just below 21, 19 and 10, and the rounded products are 21, 19 and 10. -/
theorem randomTile_rounds_up :
    randomTile (3152519739159347 / 4503599627370496) = 21 ∧
    randomTile (1426139882000657 / 2251799813685248) = 19 ∧
    randomTile (6004799503160661 / 18014398509481984) = 10 := by
  refine ⟨?_, ?_, ?_⟩
  · have hq : (3152519739159347 / 4503599627370496 : ℚ) * 30
        = 47287796087390205 / 2251799813685248 := by norm_num
    have hu : ulp (47287796087390205 / 2251799813685248) = (2 : ℚ) ^ ((4 : Int) - 52) :=
      ulp_eq _ 4 (by norm_num [abs_of_pos]) (by norm_num [abs_of_pos]) (by norm_num)
    have hr : roundHalfEven
        ((47287796087390205 / 2251799813685248 : ℚ) / (2 : ℚ) ^ ((4 : Int) - 52))
        = 5910974510923776 :=
      roundHalfEven_eq _ _ (by norm_num) (by norm_num)
    unfold randomTile toDouble
    rw [hq, hu, hr]
    norm_num
  · have hq : (1426139882000657 / 2251799813685248 : ℚ) * 30
        = 21392098230009855 / 1125899906842624 := by norm_num
    have hu : ulp (21392098230009855 / 1125899906842624) = (2 : ℚ) ^ ((4 : Int) - 52) :=
      ulp_eq _ 4 (by norm_num [abs_of_pos]) (by norm_num [abs_of_pos]) (by norm_num)
    have hr : roundHalfEven
        ((21392098230009855 / 1125899906842624 : ℚ) / (2 : ℚ) ^ ((4 : Int) - 52))
        = 5348024557502464 :=
      roundHalfEven_eq _ _ (by norm_num) (by norm_num)
    unfold randomTile toDouble
    rw [hq, hu, hr]
    norm_num
  · have hq : (6004799503160661 / 18014398509481984 : ℚ) * 30
        = 90071992547409915 / 9007199254740992 := by norm_num
    have hu : ulp (90071992547409915 / 9007199254740992) = (2 : ℚ) ^ ((3 : Int) - 52) :=
      ulp_eq _ 3 (by norm_num [abs_of_pos]) (by norm_num [abs_of_pos]) (by norm_num)
    have hr : roundHalfEven
        ((90071992547409915 / 9007199254740992 : ℚ) / (2 : ℚ) ^ ((3 : Int) - 52))
        = 5629499534213120 :=
      roundHalfEven_eq _ _ (by norm_num) (by norm_num)
    unfold randomTile toDouble
    rw [hq, hu, hr]
    norm_num

theorem randomTile_eleven : randomTile (11 / 32) = 10 :=
  randomTile_of_mem (11 / 32) 10 (by norm_num) (by norm_num) (by norm_num) (by norm_num)

theorem sample_inGrid (rand : Nat → ℚ) (hr : UnitDraws rand) (d k : Nat) :
    inGrid (sample rand d k) := by
  unfold inGrid sample
  exact ⟨randomTile_bounds _ (hr _).1 (hr _).2.1 (hr _).2.2,
    randomTile_bounds _ (hr _).1 (hr _).2.1 (hr _).2.2⟩

theorem sample_shift (rand : Nat → ℚ) (d k : Nat) :
    sample rand (d + 2) k = sample rand d (k + 1) := by
  unfold sample
  have h1 : d + 2 + 2 * k = d + 2 * (k + 1) := by omega
  rw [h1]

/-- When `placeFood` returns, it has left the loop in some round `k`: the food
is the cell sampled in that round, that cell is off the snake, and every cell
sampled in an earlier round is on the snake. -/
theorem placeFood_first_free (rand : Nat → ℚ) (fuel : Nat) (s s' : State)
    (h : placeFood rand fuel s = some s') :
    ∃ k, k < fuel ∧
      s' = { s with food := sample rand s.drawn k, drawn := s.drawn + 2 * (k + 1) } ∧
      sample rand s.drawn k ∉ s.snake ∧ ∀ j, j < k → sample rand s.drawn j ∈ s.snake := by
  induction fuel generalizing s with
  | zero => simp [placeFood] at h
  | succ n ih =>
    simp only [placeFood] at h
    split at h
    · rename_i hon
      obtain ⟨k, hk, hs', hfree, hbusy⟩ := ih _ h
      simp only at hs' hfree hbusy
      rw [sample_shift] at hs' hfree
      refine ⟨k + 1, by omega, ?_, hfree, ?_⟩
      · rw [hs']
        have h2 : s.drawn + 2 + 2 * (k + 1) = s.drawn + 2 * (k + 1 + 1) := by omega
        simp only [h2]
      · intro j hj
        cases j with
        | zero =>
          rw [← onSnake_iff]
          simpa [sample] using hon
        | succ i =>
          rw [← sample_shift]
          exact hbusy i (by omega)
    · rename_i hon
      simp only [Option.some.injEq] at h
      refine ⟨0, by omega, ?_, ?_, fun j hj => absurd hj (by omega)⟩
      · rw [← h]
        simp [sample]
      · rw [← onSnake_iff]
        simpa [sample] using hon

/-- With enough fuel `placeFood` returns the first sampled cell that is off the
snake. -/
theorem placeFood_returns (rand : Nat → ℚ) (fuel : Nat) (s : State) (k : Nat)
    (hk : k < fuel) (hfree : sample rand s.drawn k ∉ s.snake)
    (hbusy : ∀ j, j < k → sample rand s.drawn j ∈ s.snake) :
    placeFood rand fuel s =
      some { s with food := sample rand s.drawn k, drawn := s.drawn + 2 * (k + 1) } := by
  induction fuel generalizing s k with
  | zero => omega
  | succ n ih =>
    simp only [placeFood]
    cases k with
    | zero =>
      have hoff : onSnake s.snake (sample rand s.drawn 0) = false := by
        rw [← Bool.not_eq_true, onSnake_iff]; exact hfree
      simp only [sample, Nat.mul_zero, Nat.add_zero] at hoff
      simp [hoff, sample]
    | succ i =>
      have hon : onSnake s.snake (sample rand s.drawn 0) = true := by
        rw [onSnake_iff]; exact hbusy 0 (by omega)
      simp only [sample, Nat.mul_zero, Nat.add_zero] at hon
      simp only [hon, if_true]
      rw [ih _ i (by omega)]
      · simp only [sample_shift]
        have h2 : s.drawn + 2 + 2 * (i + 1) = s.drawn + 2 * (i + 1 + 1) := by omega
        simp only [h2]
      · simp only [sample_shift]; exact hfree
      · intro j hj
        simp only [sample_shift]
        exact hbusy (j + 1) (by omega)

theorem sample_halves (d k : Nat) : sample halves d k = ⟨15, 15⟩ := by
  unfold sample halves
  rw [randomTile_half]

/-- With every draw `1/2` the placement takes (15,15) in its first round when
that cell is free. -/
theorem placeFood_halves (fuel : Nat) (s : State) (h : (⟨15, 15⟩ : Cell) ∉ s.snake) :
    placeFood halves (fuel + 1) s = some { s with food := ⟨15, 15⟩, drawn := s.drawn + 2 } := by
  have hp := placeFood_returns halves (fuel + 1) s 0 (by omega)
    (by rw [sample_halves]; exact h) (fun j hj => absurd hj (by omega))
  rw [sample_halves] at hp
  exact hp

/-- When `initGame` returns, its state is `started` for the round `k` in which
the placement left its loop. -/
theorem initGame_spec (rand : Nat → ℚ) (fuel : Nat) (s0 si : State)
    (h : initGame rand fuel s0 = some si) :
    ∃ k, k < fuel ∧ si = started rand s0 k ∧ sample rand s0.drawn k ∉ startSnake ∧
      ∀ j, j < k → sample rand s0.drawn j ∈ startSnake := by
  unfold initGame at h
  simp only at h
  split at h
  · exact Option.noConfusion h
  · rename_i s2 hp
    obtain ⟨k, hk, h2, hfree, hbusy⟩ := placeFood_first_free rand fuel _ s2 hp
    simp only [Option.some.injEq] at h
    refine ⟨k, hk, ?_, hfree, hbusy⟩
    subst h
    subst h2
    unfold started timersAfterClear setInterval clearInterval startSnake
    split_ifs <;> (try split) <;> simp_all

/-- With enough fuel `initGame` returns as soon as some round samples a cell
off the start snake. -/
theorem initGame_returns (rand : Nat → ℚ) (fuel : Nat) (s0 : State) (k : Nat) (hk : k < fuel)
    (hfree : sample rand s0.drawn k ∉ startSnake)
    (hbusy : ∀ j, j < k → sample rand s0.drawn j ∈ startSnake) :
    initGame rand fuel s0 = some (started rand s0 k) := by
  unfold initGame
  simp only
  rw [placeFood_returns rand fuel _ k hk hfree hbusy]
  unfold started timersAfterClear setInterval clearInterval startSnake
  simp only
  split_ifs <;> (try split) <;> simp_all

theorem sample_congr (rand1 rand2 : Nat → ℚ) (d1 d2 : Nat)
    (h : ∀ i, rand1 (d1 + i) = rand2 (d2 + i)) (k : Nat) :
    sample rand1 d1 k = sample rand2 d2 k := by
  unfold sample
  rw [h (2 * k)]
  have h1 := h (2 * k + 1)
  rw [← Nat.add_assoc, ← Nat.add_assoc] at h1
  rw [h1]

theorem initGame_halves (fuel : Nat) (s0 : State) :
    initGame halves (fuel + 1) s0 = some (started halves s0 0) :=
  initGame_returns halves (fuel + 1) s0 0 (by omega)
    (by rw [sample_halves]; decide) (fun j hj => absurd hj (by omega))

theorem started_halves_food (s0 : State) : (started halves s0 0).food = ⟨15, 15⟩ :=
  sample_halves s0.drawn 0

theorem initGame_loaded : initGame halves 1 loaded = some afterInit := by
  rw [initGame_halves 0 loaded]
  unfold started
  rw [sample_halves]
  rfl

/-- Snake and score of the state `update` returns on a non-empty snake, for
each of the three ways it goes. -/
theorem update_fields (rand : Nat → ℚ) (fuel : Nat) (s s' : State) (part0 : Cell)
    (rest : List Cell) (hs : s.snake = part0 :: rest) (h : update rand fuel s = .ok s') :
    (Collides s part0 → s'.snake = s.snake ∧ s'.score = s.score) ∧
    (¬ Collides s part0 → newHead s part0 ≠ s.food →
      s'.snake = newHead s part0 :: s.snake.dropLast ∧ s'.score = s.score) ∧
    (¬ Collides s part0 → newHead s part0 = s.food →
      s'.snake = newHead s part0 :: s.snake ∧ s'.score = s.score + 10) := by
  have hc := commit_frame s
  refine ⟨?_, ?_, ?_⟩
  · intro hend
    rw [update_gameOver rand fuel s part0 rest hs ((collides_iff s part0).1 hend)] at h
    simp only [Except.ok.injEq] at h
    have hg := gameOver_frame (commit s)
    rw [← h]
    exact ⟨hg.1.trans hc.1, hg.2.2.1.trans hc.2.2.1⟩
  · intro hend hfood
    obtain ⟨hw, hb⟩ := not_collides s part0 hend
    rw [update_move rand fuel s part0 rest hs hw hb hfood] at h
    simp only [Except.ok.injEq] at h
    rw [← h]
    exact ⟨rfl, hc.2.2.1⟩
  · intro hend hfood
    obtain ⟨hw, hb⟩ := not_collides s part0 hend
    rw [update_eat rand fuel s part0 rest hs hw hb hfood] at h
    split at h
    · rename_i s3 hp
      simp only [Except.ok.injEq] at h
      obtain ⟨c, n, h3, -⟩ := placeFood_some rand fuel _ s3 hp
      rw [← h, h3]
      exact ⟨rfl, rfl⟩
    · exact Except.noConfusion h

/-- A tick on a non-empty snake that does not eat returns. -/
theorem update_returns (rand : Nat → ℚ) (fuel : Nat) (s : State) (part0 : Cell)
    (rest : List Cell) (hs : s.snake = part0 :: rest) (hne : ¬ Eats s part0) :
    ∃ s', update rand fuel s = .ok s' := by
  by_cases hend : Collides s part0
  · exact ⟨_, update_gameOver rand fuel s part0 rest hs ((collides_iff s part0).1 hend)⟩
  · obtain ⟨hw, hb⟩ := not_collides s part0 hend
    exact ⟨_, update_move rand fuel s part0 rest hs hw hb (fun hf => hne ⟨hend, hf⟩)⟩

/-- A tick on a non-empty snake that eats returns what the food placement on
the grown snake returns. -/
theorem update_eats (rand : Nat → ℚ) (fuel : Nat) (s s' : State) (part0 : Cell)
    (rest : List Cell) (hs : s.snake = part0 :: rest) (he : Eats s part0)
    (hplace : placeFood rand fuel
      { commit s with snake := newHead s part0 :: s.snake, score := s.score + 10 } = some s') :
    update rand fuel s = .ok s' := by
  obtain ⟨hw, hb⟩ := not_collides s part0 he.1
  rw [update_eat rand fuel s part0 rest hs hw hb he.2, hplace]

/-! ## The simulation step -/

/-- C1. On a non-empty snake, in a running game, `update` ends the game (it
returns the state produced by `gameOver`, with `isGameRunning` false) if and
only if the new head, computed with the direction committed in this call, is
outside `[0, 30)` on an axis or on a part of the snake before the move, the
tail included. -/
theorem update_ends_game_iff (rand : Nat → ℚ) (fuel : Nat) (s : State) (part0 : Cell)
    (rest : List Cell) (hs : s.snake = part0 :: rest) (hrun : s.isGameRunning = true) :
    (update rand fuel s = .ok (gameOver (commit s)) ↔
      (¬ inGrid (newHead s part0) ∨ newHead s part0 ∈ part0 :: rest)) ∧
    ((∃ s', update rand fuel s = .ok s' ∧ s'.isGameRunning = false) ↔
      (¬ inGrid (newHead s part0) ∨ newHead s part0 ∈ part0 :: rest)) := by
  rw [← hs]
  have key : ∀ s', update rand fuel s = .ok s' → s'.isGameRunning = false →
      Collides s part0 := by
    intro s' hup hfalse
    by_contra hc
    obtain ⟨hw, hb⟩ := not_collides s part0 hc
    by_cases hf : newHead s part0 = s.food
    · rw [update_eat rand fuel s part0 rest hs hw hb hf] at hup
      split at hup
      · rename_i s3 hp
        obtain ⟨c, n, h3, -⟩ := placeFood_some rand fuel _ s3 hp
        simp only [Except.ok.injEq] at hup
        subst hup
        rw [h3] at hfalse
        simp only [(commit_frame s).2.2.2.2.2.2.1, hrun] at hfalse
        exact Bool.noConfusion hfalse
      · exact Except.noConfusion hup
    · rw [update_move rand fuel s part0 rest hs hw hb hf] at hup
      simp only [Except.ok.injEq] at hup
      subst hup
      simp only [(commit_frame s).2.2.2.2.2.2.1, hrun] at hfalse
      exact Bool.noConfusion hfalse
  constructor
  · constructor
    · intro h
      exact key _ h (gameOver_frame _).2.2.2.2.2.2.2
    · intro h
      exact update_gameOver rand fuel s part0 rest hs ((collides_iff s part0).1 h)
  · constructor
    · rintro ⟨s', h, hfalse⟩
      exact key s' h hfalse
    · intro h
      exact ⟨_, update_gameOver rand fuel s part0 rest hs ((collides_iff s part0).1 h),
        (gameOver_frame _).2.2.2.2.2.2.2⟩

/-- C1, the tail cell: with snake [(5,5),(5,6),(6,6),(6,5)] heading right the
new head is the tail cell (6,5), and the tick is a game over. -/
theorem update_ends_game_iff_witness :
    newHead tailChase ⟨5, 5⟩ = ⟨6, 5⟩ ∧
    ∃ s', update halves 0 tailChase = .ok s' ∧ s'.isGameRunning = false :=
  ⟨by decide,
   (update_ends_game_iff halves 0 tailChase ⟨5, 5⟩ [⟨5, 6⟩, ⟨6, 6⟩, ⟨6, 5⟩] rfl rfl).2.2
     (Or.inr (by decide))⟩

/-- C2. A tick on a non-empty snake that does not end the game and whose new
head is not the food cell returns, and leaves the snake as the new head
followed by the old snake without its last part; food and score are
unchanged. -/
theorem update_plain_move (rand : Nat → ℚ) (fuel : Nat) (s : State) (part0 : Cell)
    (rest : List Cell) (hs : s.snake = part0 :: rest) (hlive : ¬ Collides s part0)
    (hfood : newHead s part0 ≠ s.food) :
    ∃ s', update rand fuel s = .ok s' ∧
      s'.snake = newHead s part0 :: (part0 :: rest).dropLast ∧
      s'.food = s.food ∧ s'.score = s.score := by
  obtain ⟨hw, hb⟩ := not_collides s part0 hlive
  refine ⟨_, update_move rand fuel s part0 rest hs hw hb hfood, ?_, ?_, ?_⟩
  · simp [hs]
  · exact (commit_frame s).2.1
  · exact (commit_frame s).2.2.1

/-- C2, the scenario: snake [(10,10),(10,11),(10,12)] heading up with the food
elsewhere becomes [(10,9),(10,10),(10,11)], score unchanged. -/
theorem update_plain_move_witness :
    ∃ s', update halves 0 upNoFood = .ok s' ∧
      s'.snake = [⟨10, 9⟩, ⟨10, 10⟩, ⟨10, 11⟩] ∧ s'.food = ⟨3, 4⟩ ∧ s'.score = 0 :=
  update_plain_move halves 0 upNoFood ⟨10, 10⟩ [⟨10, 11⟩, ⟨10, 12⟩] rfl (by decide) (by decide)

/-- C3. A tick on a non-empty snake that does not end the game and whose new
head is the food cell, with a food placement that returns: `update` returns,
the snake is the new head followed by the whole old snake, the score has grown
by 10, and the new food cell is on no part of the grown snake, so it is not the
eaten cell. -/
theorem update_eat_food (rand : Nat → ℚ) (fuel : Nat) (s s' : State) (part0 : Cell)
    (rest : List Cell) (hs : s.snake = part0 :: rest) (hlive : ¬ Collides s part0)
    (hfood : newHead s part0 = s.food)
    (hplace : placeFood rand fuel
      { commit s with snake := newHead s part0 :: s.snake, score := s.score + 10 } = some s') :
    update rand fuel s = .ok s' ∧
      s'.snake = newHead s part0 :: part0 :: rest ∧
      s'.score = s.score + 10 ∧
      s'.food ∉ s'.snake ∧ s'.food ≠ s.food := by
  obtain ⟨hw, hb⟩ := not_collides s part0 hlive
  have hup := update_eat rand fuel s part0 rest hs hw hb hfood
  rw [hplace] at hup
  obtain ⟨c, n, h3, hfree⟩ := placeFood_some rand fuel _ s' hplace
  have hsn : s'.snake = newHead s part0 :: part0 :: rest := by rw [h3, ← hs]
  have hnot : s'.food ∉ s'.snake := by
    have hc : c ∉ newHead s part0 :: s.snake := by
      rw [← onSnake_iff, Bool.not_eq_true]; exact hfree
    rw [hsn, ← hs, h3]
    exact hc
  refine ⟨hup, hsn, by rw [h3], hnot, ?_⟩
  intro heq
  apply hnot
  rw [heq, hsn, ← hfood]
  exact List.mem_cons_self _ _

/-- C3, the scenario: snake [(10,10),(10,11),(10,12)] heading up with food at
(10,9) becomes [(10,9),(10,10),(10,11),(10,12)], the score goes from 0 to 10
and the new food (here (15,15)) is elsewhere. -/
theorem update_eat_food_witness :
    ∃ s', update halves 1 upFood = .ok s' ∧
      s'.snake = [⟨10, 9⟩, ⟨10, 10⟩, ⟨10, 11⟩, ⟨10, 12⟩] ∧ s'.score = 10 ∧
      s'.food ∉ s'.snake ∧ s'.food ≠ ⟨10, 9⟩ :=
  ⟨{ upFood with snake := [⟨10, 9⟩, ⟨10, 10⟩, ⟨10, 11⟩, ⟨10, 12⟩], score := 10,
                 food := ⟨15, 15⟩, drawn := 4 },
   update_eat_food halves 1 upFood _ ⟨10, 10⟩ [⟨10, 11⟩, ⟨10, 12⟩] rfl (by decide) (by decide)
     (placeFood_halves 0 _ (by decide))⟩

/-- C4. A tick on a non-empty snake that ends the game (wall or self
collision) returns with `isGameRunning` false and with snake, food and score
exactly as before the call. -/
theorem update_game_over_frame (rand : Nat → ℚ) (fuel : Nat) (s : State) (part0 : Cell)
    (rest : List Cell) (hs : s.snake = part0 :: rest) (hend : Collides s part0) :
    ∃ s', update rand fuel s = .ok s' ∧ s'.isGameRunning = false ∧
      s'.snake = s.snake ∧ s'.food = s.food ∧ s'.score = s.score := by
  have hf := gameOver_frame (commit s)
  have hc := commit_frame s
  refine ⟨_, update_gameOver rand fuel s part0 rest hs ((collides_iff s part0).1 hend),
    hf.2.2.2.2.2.2.2, ?_, ?_, ?_⟩
  · rw [hf.1, hc.1]
  · rw [hf.2.1, hc.2.1]
  · rw [hf.2.2.1, hc.2.2.1]

/-- C4, the scenario: snake [(0,10),(1,10),(2,10)] heading left has new head
(-1,10); the tick is a game over and the snake is unchanged. -/
theorem update_game_over_frame_witness :
    newHead leftEdge ⟨0, 10⟩ = ⟨-1, 10⟩ ∧
    ∃ s', update halves 0 leftEdge = .ok s' ∧ s'.isGameRunning = false ∧
      s'.snake = [⟨0, 10⟩, ⟨1, 10⟩, ⟨2, 10⟩] ∧ s'.food = ⟨3, 4⟩ ∧ s'.score = 0 :=
  ⟨by decide,
   update_game_over_frame halves 0 leftEdge ⟨0, 10⟩ [⟨1, 10⟩, ⟨2, 10⟩] rfl (by decide)⟩

/-- C5. For every call of `update` on a non-empty snake: a tick that does not
eat (game-over ticks included) returns with the snake as long as before; a
tick that eats, with a food placement that returns, returns with the snake one
part longer; and whenever `update` returns, the length is the old length plus
one exactly when the tick eats. -/
theorem update_length (rand : Nat → ℚ) (fuel : Nat) (s : State) (part0 : Cell)
    (rest : List Cell) (hs : s.snake = part0 :: rest) :
    (∀ s', update rand fuel s = .ok s' →
      s'.snake.length = if Eats s part0 then s.snake.length + 1 else s.snake.length) ∧
    (¬ Eats s part0 →
      ∃ s', update rand fuel s = .ok s' ∧ s'.snake.length = s.snake.length) ∧
    (Eats s part0 → ∀ s',
      placeFood rand fuel
        { commit s with snake := newHead s part0 :: s.snake, score := s.score + 10 } = some s' →
      update rand fuel s = .ok s' ∧ s'.snake.length = s.snake.length + 1) := by
  have hall : ∀ s', update rand fuel s = .ok s' →
      s'.snake.length = if Eats s part0 then s.snake.length + 1 else s.snake.length := by
    intro s' hup
    obtain ⟨hover, hmove, heat⟩ := update_fields rand fuel s s' part0 rest hs hup
    by_cases hend : Collides s part0
    · have hne : ¬ Eats s part0 := fun h => h.1 hend
      rw [if_neg hne, (hover hend).1]
    · by_cases hfood : newHead s part0 = s.food
      · have he : Eats s part0 := ⟨hend, hfood⟩
        rw [if_pos he, (heat hend hfood).1]
        rfl
      · have hne : ¬ Eats s part0 := fun h => hfood h.2
        rw [if_neg hne, (hmove hend hfood).1, hs]
        simp
  refine ⟨hall, ?_, ?_⟩
  · intro hne
    obtain ⟨s', hup⟩ := update_returns rand fuel s part0 rest hs hne
    refine ⟨s', hup, ?_⟩
    rw [hall s' hup, if_neg hne]
  · intro he s' hplace
    have hup := update_eats rand fuel s s' part0 rest hs he hplace
    refine ⟨hup, ?_⟩
    rw [hall s' hup, if_pos he]

/-- C5 at the three scenarios: the eating tick returns with 4 parts from 3,
the plain move and the game-over tick return with 3. -/
theorem update_length_witness :
    (∃ s', update halves 1 upFood = .ok s' ∧ s'.snake.length = 4) ∧
    (∃ s', update halves 1 upNoFood = .ok s' ∧ s'.snake.length = 3) ∧
    (∃ s', update halves 1 leftEdge = .ok s' ∧ s'.snake.length = 3) :=
  ⟨⟨_, (update_length halves 1 upFood ⟨10, 10⟩ [⟨10, 11⟩, ⟨10, 12⟩] rfl).2.2 (by decide) _
      (placeFood_halves 0 _ (by decide))⟩,
   (update_length halves 1 upNoFood ⟨10, 10⟩ [⟨10, 11⟩, ⟨10, 12⟩] rfl).2.1 (by decide),
   (update_length halves 1 leftEdge ⟨0, 10⟩ [⟨1, 10⟩, ⟨2, 10⟩] rfl).2.1 (by decide)⟩

/-! ## Sessions: key events and ticks -/

theorem keydown_frame (k : String) (s : State) :
    ∃ a b : Int, keydown k s = { s with nextDx := a, nextDy := b } ∧
      ((a, b) = (s.nextDx, s.nextDy) ∨ (a, b) ∈ unitSteps) := by
  unfold keydown
  split_ifs
  all_goals first
    | exact ⟨s.nextDx, s.nextDy, rfl, Or.inl rfl⟩
    | exact ⟨_, _, rfl, Or.inr (by decide)⟩

theorem keydowns_frame (keys : List String) (s : State) :
    ∃ a b : Int, keydowns keys s = { s with nextDx := a, nextDy := b } := by
  unfold keydowns
  induction keys generalizing s with
  | nil => exact ⟨s.nextDx, s.nextDy, rfl⟩
  | cons k ks ih =>
    obtain ⟨a, b, h1, -⟩ := keydown_frame k s
    obtain ⟨c, d, h2⟩ := ih (keydown k s)
    refine ⟨c, d, ?_⟩
    rw [List.foldl_cons, h2, h1]

/-- Every way `update` returns a state. -/
theorem update_ok_cases (rand : Nat → ℚ) (fuel : Nat) (s s' : State)
    (h : update rand fuel s = .ok s') :
    ∃ (part0 : Cell) (rest : List Cell), s.snake = part0 :: rest ∧
      ((Collides s part0 ∧ s' = gameOver (commit s)) ∨
       (¬ Collides s part0 ∧ newHead s part0 ≠ s.food ∧
          s' = { commit s with snake := newHead s part0 :: s.snake.dropLast }) ∨
       (¬ Collides s part0 ∧ newHead s part0 = s.food ∧
          placeFood rand fuel
            { commit s with snake := newHead s part0 :: s.snake, score := s.score + 10 }
              = some s')) := by
  cases hsn : s.snake with
  | nil =>
    have hc : (commit s).snake = [] := by rw [(commit_frame s).1, hsn]
    unfold update at h
    simp only [hc] at h
    exact Except.noConfusion h
  | cons part0 rest =>
    refine ⟨part0, rest, rfl, ?_⟩
    rw [← hsn]
    by_cases hend : Collides s part0
    · left
      rw [update_gameOver rand fuel s part0 rest hsn ((collides_iff s part0).1 hend)] at h
      simp only [Except.ok.injEq] at h
      exact ⟨hend, h.symm⟩
    · right
      obtain ⟨hw, hb⟩ := not_collides s part0 hend
      by_cases hfood : newHead s part0 = s.food
      · right
        rw [update_eat rand fuel s part0 rest hsn hw hb hfood] at h
        split at h
        · rename_i s3 hp
          simp only [Except.ok.injEq] at h
          exact ⟨hend, hfood, h ▸ hp⟩
        · exact Except.noConfusion h
      · left
        rw [update_move rand fuel s part0 rest hsn hw hb hfood] at h
        simp only [Except.ok.injEq] at h
        exact ⟨hend, hfood, h.symm⟩

/-- What `initGame` leaves behind when it returns. -/
theorem initGame_some (rand : Nat → ℚ) (fuel : Nat) (s0 si : State)
    (h : initGame rand fuel s0 = some si) :
    si.snake = [⟨10, 10⟩, ⟨10, 11⟩, ⟨10, 12⟩] ∧ si.score = 0 ∧
    si.dx = 0 ∧ si.dy = -1 ∧ si.nextDx = 0 ∧ si.nextDy = -1 ∧
    si.isGameRunning = true ∧ si.food ∉ si.snake := by
  unfold initGame at h
  simp only at h
  split at h
  · exact Option.noConfusion h
  · rename_i s2 hp
    obtain ⟨c, n, h2, hfree⟩ := placeFood_some rand fuel _ s2 hp
    simp only [Option.some.injEq] at h
    have hc : c ∉ ([⟨10, 10⟩, ⟨10, 11⟩, ⟨10, 12⟩] : List Cell) := by
      rw [← onSnake_iff, Bool.not_eq_true]; exact hfree
    subst h
    subst h2
    unfold setInterval clearInterval
    split_ifs <;> (try split) <;> simp_all

/-- Induction over the reachable states of a session. -/
theorem reachable_induction (rand : Nat → ℚ) (P : State → Prop)
    (hinit : ∀ s0 fuel si, initGame rand fuel s0 = some si → P si)
    (hkey : ∀ s k, P s → P (keydown k s))
    (htick : ∀ s fuel s', P s → update rand fuel s = .ok s' → P s') :
    ∀ s, Reachable rand s → P s := by
  rintro s ⟨s0, si, fuel, hi, hsteps⟩
  induction hsteps with
  | refl => exact hinit s0 fuel si hi
  | tail _ hstep ih =>
    cases hstep with
    | key k => exact hkey _ k ih
    | tick _ f _ hup => exact htick _ f _ ih hup

theorem update_score (rand : Nat → ℚ) (fuel : Nat) (s s' : State) (part0 : Cell)
    (rest : List Cell) (hs : s.snake = part0 :: rest) (h : update rand fuel s = .ok s') :
    s'.score = if Eats s part0 then s.score + 10 else s.score := by
  obtain ⟨hover, hmove, heat⟩ := update_fields rand fuel s s' part0 rest hs h
  by_cases hend : Collides s part0
  · have hne : ¬ Eats s part0 := fun he => he.1 hend
    rw [if_neg hne, (hover hend).2]
  · by_cases hfood : newHead s part0 = s.food
    · have he : Eats s part0 := ⟨hend, hfood⟩
      rw [if_pos he, (heat hend hfood).2]
    · have hne : ¬ Eats s part0 := fun he => hfood he.2
      rw [if_neg hne, (hmove hend hfood).2]

theorem update_score_le (rand : Nat → ℚ) (fuel : Nat) (s s' : State)
    (h : update rand fuel s = .ok s') : s.score ≤ s'.score := by
  obtain ⟨part0, rest, hs, -⟩ := update_ok_cases rand fuel s s' h
  rw [update_score rand fuel s s' part0 rest hs h]
  split <;> omega

theorem keydown_score (k : String) (s : State) : (keydown k s).score = s.score := by
  obtain ⟨a, b, h, -⟩ := keydown_frame k s
  rw [h]

/-- C6. A tick on a non-empty snake that does not eat returns with the score
as it was; a tick that eats, with a food placement that returns, returns with
the score plus exactly 10; whenever a tick returns the score is the old score
plus 10 exactly when the tick eats.  Over any sequence of key events and ticks
the score never decreases, and in every state of a session it is a
non-negative integer. -/
theorem score_never_decreases (rand : Nat → ℚ) :
    (∀ (fuel : Nat) (s s' : State) (part0 : Cell) (rest : List Cell),
      s.snake = part0 :: rest → update rand fuel s = .ok s' →
      s'.score = if Eats s part0 then s.score + 10 else s.score) ∧
    (∀ (fuel : Nat) (s : State) (part0 : Cell) (rest : List Cell),
      s.snake = part0 :: rest → ¬ Eats s part0 →
      ∃ s', update rand fuel s = .ok s' ∧ s'.score = s.score) ∧
    (∀ (fuel : Nat) (s s' : State) (part0 : Cell) (rest : List Cell),
      s.snake = part0 :: rest → Eats s part0 →
      placeFood rand fuel
        { commit s with snake := newHead s part0 :: s.snake, score := s.score + 10 } = some s' →
      update rand fuel s = .ok s' ∧ s'.score = s.score + 10) ∧
    (∀ s s', Steps rand s s' → s.score ≤ s'.score) ∧
    (∀ s, Reachable rand s → 0 ≤ s.score) := by
  refine ⟨fun fuel s s' part0 rest hs h => update_score rand fuel s s' part0 rest hs h,
    ?_, ?_, ?_, ?_⟩
  · intro fuel s part0 rest hs hne
    obtain ⟨s', hup⟩ := update_returns rand fuel s part0 rest hs hne
    refine ⟨s', hup, ?_⟩
    rw [update_score rand fuel s s' part0 rest hs hup, if_neg hne]
  · intro fuel s s' part0 rest hs he hplace
    have hup := update_eats rand fuel s s' part0 rest hs he hplace
    refine ⟨hup, ?_⟩
    rw [update_score rand fuel s s' part0 rest hs hup, if_pos he]
  · intro s s' hsteps
    induction hsteps with
    | refl => exact le_refl _
    | tail _ hstep ih =>
      cases hstep with
      | key k => rw [keydown_score]; exact ih
      | tick _ f _ hup => exact le_trans ih (update_score_le rand f _ _ hup)
  · apply reachable_induction rand (fun s => 0 ≤ s.score)
    · intro s0 fuel si hi
      rw [(initGame_some rand fuel s0 si hi).2.1]
    · intro s k h
      rw [keydown_score]; exact h
    · intro s fuel s' h hup
      exact le_trans h (update_score_le rand fuel s s' hup)

/-- C6 at the scenarios: the eating tick returns with the score 10 from 0, the
plain move returns with the score 0. -/
theorem score_never_decreases_witness :
    (∃ s', update halves 1 upFood = .ok s' ∧ s'.score = 10) ∧
    (∃ s', update halves 1 upNoFood = .ok s' ∧ s'.score = 0) :=
  ⟨⟨_, (score_never_decreases halves).2.2.1 1 upFood _ ⟨10, 10⟩ [⟨10, 11⟩, ⟨10, 12⟩] rfl
      (by decide) (placeFood_halves 0 _ (by decide))⟩,
   (score_never_decreases halves).2.1 1 upNoFood ⟨10, 10⟩ [⟨10, 11⟩, ⟨10, 12⟩] rfl (by decide)⟩

/-! ## The direction buffer -/

theorem commit_no_reversal (s : State) (hne : ¬ (s.dx = 0 ∧ s.dy = 0)) :
    ¬ ((commit s).dx = -s.dx ∧ (commit s).dy = -s.dy) := by
  unfold commit
  split
  · rename_i hc
    simp only
    omega
  · omega

theorem update_direction (rand : Nat → ℚ) (fuel : Nat) (s s' : State)
    (h : update rand fuel s = .ok s') :
    s'.dx = (commit s).dx ∧ s'.dy = (commit s).dy ∧
    s'.nextDx = s.nextDx ∧ s'.nextDy = s.nextDy := by
  have hc := commit_frame s
  obtain ⟨part0, rest, -, h1 | h1 | h1⟩ := update_ok_cases rand fuel s s' h
  · have hg := gameOver_frame (commit s)
    rw [h1.2]
    exact ⟨hg.2.2.2.1, hg.2.2.2.2.1, hg.2.2.2.2.2.1.trans hc.2.2.2.1,
      hg.2.2.2.2.2.2.1.trans hc.2.2.2.2.1⟩
  · rw [h1.2.2]
    exact ⟨rfl, rfl, hc.2.2.2.1, hc.2.2.2.2.1⟩
  · obtain ⟨c, n, h3, -⟩ := placeFood_some rand fuel _ s' h1.2.2
    rw [h3]
    exact ⟨rfl, rfl, hc.2.2.2.1, hc.2.2.2.2.1⟩

theorem commit_unit (s : State) (hd : (s.dx, s.dy) ∈ unitSteps)
    (hn : (s.nextDx, s.nextDy) ∈ unitSteps) :
    ((commit s).dx, (commit s).dy) ∈ unitSteps := by
  unfold commit
  split
  · exact hn
  · exact hd

/-- In a session both direction slots hold unit steps. -/
theorem reachable_unit (rand : Nat → ℚ) (s : State) (h : Reachable rand s) :
    (s.dx, s.dy) ∈ unitSteps ∧ (s.nextDx, s.nextDy) ∈ unitSteps := by
  revert s
  apply reachable_induction rand
    (fun s => (s.dx, s.dy) ∈ unitSteps ∧ (s.nextDx, s.nextDy) ∈ unitSteps)
  · intro s0 fuel si hi
    obtain ⟨-, -, h1, h2, h3, h4, -⟩ := initGame_some rand fuel s0 si hi
    rw [h1, h2, h3, h4]
    exact ⟨by decide, by decide⟩
  · intro s k ⟨hd, hn⟩
    obtain ⟨a, b, h, hab⟩ := keydown_frame k s
    rw [h]
    refine ⟨hd, ?_⟩
    rcases hab with hab | hab
    · rw [hab]; exact hn
    · exact hab
  · intro s fuel s' ⟨hd, hn⟩ hup
    obtain ⟨h1, h2, h3, h4⟩ := update_direction rand fuel s s' hup
    rw [h1, h2, h3, h4]
    exact ⟨commit_unit s hd hn, hn⟩

/-- C7. The commit step of `update` never turns a committed direction other
than (0,0) into its exact opposite, whatever the pending direction holds;
hence in a session, for any key events between two ticks, the direction
committed by a tick is never the exact opposite of the one committed before
it. -/
theorem no_reversal (rand : Nat → ℚ) :
    (∀ s : State, (s.dx, s.dy) ≠ (0, 0) →
      ((commit s).dx, (commit s).dy) ≠ (-s.dx, -s.dy)) ∧
    (∀ s : State, Reachable rand s → ∀ (keys : List String) (fuel : Nat) (s' : State),
      update rand fuel (keydowns keys s) = .ok s' → (s'.dx, s'.dy) ≠ (-s.dx, -s.dy)) := by
  constructor
  · intro s hne heq
    simp only [ne_eq, Prod.mk.injEq] at hne heq
    exact commit_no_reversal s hne heq
  · intro s hr keys fuel s' hup heq
    obtain ⟨a, b, hk⟩ := keydowns_frame keys s
    obtain ⟨h1, h2, -⟩ := update_direction rand fuel _ s' hup
    have hu := (reachable_unit rand s hr).1
    have hne : ¬ ((keydowns keys s).dx = 0 ∧ (keydowns keys s).dy = 0) := by
      rw [hk]
      simp only [unitSteps, List.mem_cons, Prod.mk.injEq, List.mem_singleton,
        List.not_mem_nil, or_false] at hu
      simp only
      omega
    apply commit_no_reversal _ hne
    simp only [Prod.mk.injEq] at heq
    rw [← h1, ← h2, heq.1, heq.2, hk]
    exact ⟨rfl, rfl⟩

/-- C7 at a concrete state: heading up with Down buffered, the commit keeps
the direction up. -/
theorem no_reversal_witness :
    ((commit { upNoFood with nextDx := 0, nextDy := 1 }).dx,
     (commit { upNoFood with nextDx := 0, nextDy := 1 }).dy) ≠ (0, 1) :=
  (no_reversal halves).1 { upNoFood with nextDx := 0, nextDy := 1 } (by decide)

/-- C8. When the committed and the pending direction are both taken from the
direction set, the per-axis test of `update` holds exactly when pending is
non-zero and not the reversal of committed, so the commit step of `update`
is the commit of the specification: committed becomes pending in that case and
is unchanged otherwise.  The pending slot is never changed by the commit. -/
theorem commit_refines_spec (s : State) (hc : (s.dx, s.dy) ∈ directions)
    (hp : (s.nextDx, s.nextDy) ∈ directions) :
    (((s.nextDx ≠ 0 ∧ s.nextDx ≠ -s.dx) ∨ (s.nextDy ≠ 0 ∧ s.nextDy ≠ -s.dy)) ↔
      ((s.nextDx, s.nextDy) ≠ (0, 0) ∧ (s.nextDx, s.nextDy) ≠ (-s.dx, -s.dy))) ∧
    commit s = commitSpec s ∧
    (commit s).nextDx = s.nextDx ∧ (commit s).nextDy = s.nextDy := by
  have hiff : ((s.nextDx ≠ 0 ∧ s.nextDx ≠ -s.dx) ∨ (s.nextDy ≠ 0 ∧ s.nextDy ≠ -s.dy)) ↔
      ((s.nextDx, s.nextDy) ≠ (0, 0) ∧ (s.nextDx, s.nextDy) ≠ (-s.dx, -s.dy)) := by
    simp only [directions, List.mem_cons, Prod.mk.injEq, List.mem_singleton,
      List.not_mem_nil, or_false] at hc hp
    simp only [ne_eq, Prod.mk.injEq]
    omega
  refine ⟨hiff, ?_, (commit_frame s).2.2.2.1, (commit_frame s).2.2.2.2.1⟩
  unfold commit commitSpec
  exact if_congr hiff rfl rfl

/-- C8 at a concrete state: heading up with Left buffered, the commit turns
left and keeps the buffer. -/
theorem commit_refines_spec_witness :
    commit { upNoFood with nextDx := -1, nextDy := 0 } =
      { upNoFood with dx := -1, dy := 0, nextDx := -1, nextDy := 0 } :=
  (commit_refines_spec { upNoFood with nextDx := -1, nextDy := 0 }
    (by decide) (by decide)).2.1.trans (by decide)

/-- C9. With the committed direction in the direction set: an arrow key whose
direction `r` is not the exact reverse of the committed direction sets pending
to `r`, whatever pending held; an arrow key whose direction is the exact
reverse of committed, and any other key, leave the state as it is; in every
case snake, food, score, the committed direction, `isGameRunning` and the
timer are unchanged. -/
theorem keydown_sets_pending (s : State) (key : String) (hc : (s.dx, s.dy) ∈ directions) :
    (∀ r, arrow key = some r → r ≠ (-s.dx, -s.dy) →
      keydown key s = { s with nextDx := r.1, nextDy := r.2 }) ∧
    (∀ r, arrow key = some r → r = (-s.dx, -s.dy) → keydown key s = s) ∧
    (arrow key = none → keydown key s = s) ∧
    ((keydown key s).snake = s.snake ∧ (keydown key s).food = s.food ∧
      (keydown key s).score = s.score ∧ (keydown key s).dx = s.dx ∧
      (keydown key s).dy = s.dy ∧ (keydown key s).isGameRunning = s.isGameRunning ∧
      (keydown key s).gameLoopId = s.gameLoopId ∧ (keydown key s).timers = s.timers) := by
  simp only [directions, List.mem_cons, Prod.mk.injEq, List.mem_singleton,
    List.not_mem_nil, or_false] at hc
  refine ⟨?_, ?_, ?_, ?_⟩
  · intro r hr hne
    unfold arrow at hr
    unfold keydown
    split_ifs at hr ⊢ <;> simp only [Option.some.injEq] at hr <;> subst hr <;>
      first
        | rfl
        | (exfalso; apply hne; simp only [Prod.mk.injEq]; omega)
  · intro r hr heq
    unfold arrow at hr
    unfold keydown
    split_ifs at hr ⊢ <;> simp only [Option.some.injEq] at hr <;> subst hr <;>
      first
        | rfl
        | (exfalso; simp only [Prod.mk.injEq] at heq; omega)
  · intro hr
    unfold arrow at hr
    unfold keydown
    split_ifs at hr ⊢
    rfl
  · obtain ⟨a, b, h, -⟩ := keydown_frame key s
    rw [h]
    exact ⟨rfl, rfl, rfl, rfl, rfl, rfl, rfl, rfl⟩

/-- C9, the scenario: heading up, Right then Left with no tick between leave
pending = (-1,0); Up then Down leave pending = (0,-1), because Down is the
reverse of the committed direction. -/
theorem keydown_sets_pending_witness :
    keydown "ArrowLeft" (keydown "ArrowRight" upNoFood) =
      { upNoFood with nextDx := -1, nextDy := 0 } ∧
    keydown "ArrowDown" (keydown "ArrowUp" upNoFood) =
      { upNoFood with nextDx := 0, nextDy := -1 } :=
  ⟨(keydown_sets_pending (keydown "ArrowRight" upNoFood) "ArrowLeft" (by decide)).1
      (-1, 0) (by decide) (by decide),
   ((keydown_sets_pending (keydown "ArrowUp" upNoFood) "ArrowDown" (by decide)).2.1
      (0, 1) (by decide) (by decide)).trans (by decide)⟩

/-! ## The snake invariant -/

theorem update_snakeInv (rand : Nat → ℚ) (fuel : Nat) (s s' : State) (hinv : SnakeInv s)
    (h : update rand fuel s = .ok s') : SnakeInv s' := by
  obtain ⟨hnd, hlen⟩ := hinv
  obtain ⟨part0, rest, hs, h1 | h1 | h1⟩ := update_ok_cases rand fuel s s' h
  · have hsn : s'.snake = s.snake := by
      rw [h1.2, (gameOver_frame _).1, (commit_frame s).1]
    unfold SnakeInv
    rw [hsn]
    exact ⟨hnd, hlen⟩
  · obtain ⟨-, hb⟩ := not_collides s part0 h1.1
    have hsn : s'.snake = newHead s part0 :: s.snake.dropLast := by rw [h1.2.2]
    unfold SnakeInv
    rw [hsn]
    constructor
    · rw [List.nodup_cons]
      exact ⟨fun hm => hb ((List.dropLast_sublist s.snake).subset hm),
        hnd.sublist (List.dropLast_sublist s.snake)⟩
    · rw [List.length_cons, List.length_dropLast]
      omega
  · obtain ⟨-, hb⟩ := not_collides s part0 h1.1
    obtain ⟨c, n, h3, -⟩ := placeFood_some rand fuel _ s' h1.2.2
    have hsn : s'.snake = newHead s part0 :: s.snake := by rw [h3]
    unfold SnakeInv
    rw [hsn]
    constructor
    · rw [List.nodup_cons]
      exact ⟨hb, hnd⟩
    · rw [List.length_cons]
      omega

theorem update_no_typeError (rand : Nat → ℚ) (fuel : Nat) (s : State) (hne : s.snake ≠ []) :
    update rand fuel s ≠ .error .typeError := by
  obtain ⟨part0, rest, hs⟩ := List.exists_cons_of_ne_nil hne
  by_cases hend : Collides s part0
  · rw [update_gameOver rand fuel s part0 rest hs ((collides_iff s part0).1 hend)]
    exact fun h => Except.noConfusion h
  · obtain ⟨hw, hb⟩ := not_collides s part0 hend
    by_cases hfood : newHead s part0 = s.food
    · rw [update_eat rand fuel s part0 rest hs hw hb hfood]
      split
      · exact fun h => Except.noConfusion h
      · intro h
        simp only [Except.error.injEq] at h
        exact Fault.noConfusion h
    · rw [update_move rand fuel s part0 rest hs hw hb hfood]
      exact fun h => Except.noConfusion h

/-- C10. The snake invariant (no cell twice, at least three parts) holds right
after `initGame`, is preserved by every `update` that returns, on moves and on
game-over ticks, and so holds in every state of a session; there the snake is
non-empty and `update` never fails on reading `snake[0]`. -/
theorem snake_invariant (rand : Nat → ℚ) :
    (∀ (s0 si : State) (fuel : Nat), initGame rand fuel s0 = some si → SnakeInv si) ∧
    (∀ (s s' : State) (fuel : Nat), SnakeInv s → update rand fuel s = .ok s' → SnakeInv s') ∧
    (∀ s : State, Reachable rand s →
      s.snake.Nodup ∧ 3 ≤ s.snake.length ∧ s.snake ≠ [] ∧
      ∀ fuel, update rand fuel s ≠ .error .typeError) := by
  have hinit : ∀ (s0 si : State) (fuel : Nat), initGame rand fuel s0 = some si →
      SnakeInv si := by
    intro s0 si fuel hi
    unfold SnakeInv
    rw [(initGame_some rand fuel s0 si hi).1]
    exact ⟨by decide, by decide⟩
  refine ⟨hinit, fun s s' fuel hinv h => update_snakeInv rand fuel s s' hinv h, ?_⟩
  intro s hr
  have hinv : SnakeInv s := by
    revert s
    apply reachable_induction rand SnakeInv
    · intro s0 fuel si hi
      exact hinit s0 si fuel hi
    · intro s k h
      obtain ⟨a, b, hk, -⟩ := keydown_frame k s
      unfold SnakeInv
      rw [hk]
      exact h
    · intro s fuel s' h hup
      exact update_snakeInv rand fuel s s' h hup
  have hne : s.snake ≠ [] := by
    intro h0
    have := hinv.2
    rw [h0] at this
    simp at this
  exact ⟨hinv.1, hinv.2, hne, fun fuel => update_no_typeError rand fuel s hne⟩

/-- A concrete session: start from the loaded page, press Left, one tick. -/
theorem reachable_afterTurn : Reachable halves afterTurn :=
  ⟨loaded, afterInit, 1, initGame_loaded,
    Relation.ReflTransGen.tail
      (Relation.ReflTransGen.tail Relation.ReflTransGen.refl (Step.key afterInit "ArrowLeft"))
      (Step.tick _ afterTurn 0 (by decide) (by rfl))⟩

/-- C10 at a concrete session: after start, Left and one tick the snake is
[(9,10),(10,10),(10,11)], without a repeated cell, and the next `update` does
not fail on `snake[0]`. -/
theorem snake_invariant_witness :
    afterTurn.snake.Nodup ∧ 3 ≤ afterTurn.snake.length ∧ afterTurn.snake ≠ [] ∧
      ∀ fuel, update halves fuel afterTurn ≠ .error .typeError :=
  (snake_invariant halves).2.2 afterTurn reachable_afterTurn

/-! ## Food placement -/

theorem sample_busyThenFree :
    sample busyThenFree 2 0 = ⟨10, 10⟩ ∧ sample busyThenFree 2 1 = ⟨15, 15⟩ := by
  unfold sample busyThenFree
  simp only [Nat.mul_zero, Nat.add_zero, Nat.mul_one, Nat.reduceAdd, Nat.reduceLT, if_true,
    Nat.lt_irrefl, if_false, randomTile_eleven, randomTile_half]
  exact ⟨trivial, trivial⟩

theorem placeFood_busyThenFree :
    placeFood busyThenFree 2 upFood = some { upFood with food := ⟨15, 15⟩, drawn := 6 } := by
  have hp := placeFood_returns busyThenFree 2 upFood 1 (by omega)
    (by rw [show upFood.drawn = 2 from rfl, sample_busyThenFree.2]; decide)
    (fun j hj => by
      have hj0 : j = 0 := by omega
      rw [hj0, show upFood.drawn = 2 from rfl, sample_busyThenFree.1]
      decide)
  rw [show upFood.drawn = 2 from rfl, sample_busyThenFree.2] at hp
  exact hp

/-- C12. Whenever `placeFood` returns, the food cell is on no part of the
snake, it is the first of the sampled cells `(floor(r1*30), floor(r2*30))`
(each product rounded to a double, as the program computes it) that is off the
snake (every cell sampled in an earlier round is on the snake), and the snake
is as it was. -/
theorem placeFood_spec (rand : Nat → ℚ) (fuel : Nat) (s s' : State)
    (h : placeFood rand fuel s = some s') :
    s'.food ∉ s'.snake ∧ s'.snake = s.snake ∧
    ∃ k, s'.food = sample rand s.drawn k ∧ sample rand s.drawn k ∉ s.snake ∧
      ∀ j, j < k → sample rand s.drawn j ∈ s.snake := by
  obtain ⟨k, -, hs', hfree, hbusy⟩ := placeFood_first_free rand fuel s s' h
  have hsn : s'.snake = s.snake := by rw [hs']
  have hfd : s'.food = sample rand s.drawn k := by rw [hs']
  refine ⟨?_, hsn, k, hfd, hfree, hbusy⟩
  rw [hsn, hfd]
  exact hfree

/-- C12 at a concrete run: on the snake [(10,10),(10,11),(10,12)] the first
sampled cell (10,10) is rejected and the second, (15,15), becomes the food. -/
theorem placeFood_spec_witness :
    sample busyThenFree 2 0 = ⟨10, 10⟩ ∧
    ∃ s', placeFood busyThenFree 2 upFood = some s' ∧ s'.food = ⟨15, 15⟩ ∧
      s'.food ∉ s'.snake ∧ s'.snake = upFood.snake :=
  ⟨sample_busyThenFree.1,
   { upFood with food := ⟨15, 15⟩, drawn := 6 },
   placeFood_busyThenFree, rfl,
   (placeFood_spec busyThenFree 2 upFood { upFood with food := ⟨15, 15⟩, drawn := 6 }
      placeFood_busyThenFree).1,
   (placeFood_spec busyThenFree 2 upFood { upFood with food := ⟨15, 15⟩, drawn := 6 }
      placeFood_busyThenFree).2.1⟩

theorem tileDraw_bounds (j : Int) (h0 : 0 ≤ j) (h1 : j < 30) :
    IsDouble (tileDraw j) ∧ 0 ≤ tileDraw j ∧ tileDraw j < 1 := by
  have hm0 : 0 ≤ (128 * j) / 15 + 1 := by omega
  have hm1 : (128 * j) / 15 + 1 < 256 := by omega
  have hq0 : (0 : ℚ) ≤ (((128 * j) / 15 + 1 : Int) : ℚ) := by exact_mod_cast hm0
  have hq1 : (((128 * j) / 15 + 1 : Int) : ℚ) < 256 := by exact_mod_cast hm1
  have hnn : 0 ≤ tileDraw j := by
    unfold tileDraw
    positivity
  refine ⟨⟨((128 * j) / 15 + 1).toNat, -8, ?_, by norm_num, by norm_num, ?_⟩, hnn, ?_⟩
  · omega
  · rw [abs_of_nonneg hnn]
    unfold tileDraw
    have hc : ((((128 * j) / 15 + 1).toNat : Nat) : ℚ) = (((128 * j) / 15 + 1 : Int) : ℚ) := by
      have : ((((128 * j) / 15 + 1).toNat : Nat) : Int) = (128 * j) / 15 + 1 :=
        Int.toNat_of_nonneg hm0
      exact_mod_cast this
    rw [hc]
    norm_num
    ring
  · unfold tileDraw
    rw [div_lt_one (by norm_num)]
    exact hq1

theorem randomTile_tileDraw (j : Int) (h0 : 0 ≤ j) (h1 : j < 30) :
    randomTile (tileDraw j) = j := by
  have hlo : 256 * j + 1 ≤ 30 * ((128 * j) / 15 + 1) := by omega
  have hhi : 30 * ((128 * j) / 15 + 1) ≤ 256 * j + 255 := by omega
  have hloq : (256 : ℚ) * j + 1 ≤ 30 * (((128 * j) / 15 + 1 : Int) : ℚ) := by
    exact_mod_cast hlo
  have hhiq : (30 : ℚ) * (((128 * j) / 15 + 1 : Int) : ℚ) ≤ 256 * j + 255 := by
    exact_mod_cast hhi
  apply randomTile_of_mem _ j h0 _ _ h1
  · unfold tileDraw
    linarith
  · unfold tileDraw
    linarith

theorem sample_aimAt (d : Nat) (c : Cell) (hc : inGrid c) : sample (aimAt d c) d 0 = c := by
  obtain ⟨⟨hx0, hx1⟩, hy0, hy1⟩ := hc
  unfold sample aimAt
  have h1 : ¬ (d + 2 * 0 + 1 = d) := by omega
  simp only [Nat.mul_zero, Nat.add_zero, if_true, h1, if_false]
  rw [randomTile_tileDraw c.x hx0 hx1, randomTile_tileDraw c.y hy0 hy1]

theorem unitDraws_aimAt (d : Nat) (c : Cell) (hc : inGrid c) : UnitDraws (aimAt d c) := by
  obtain ⟨⟨hx0, hx1⟩, hy0, hy1⟩ := hc
  intro n
  unfold aimAt
  split
  · exact tileDraw_bounds c.x hx0 hx1
  · exact tileDraw_bounds c.y hy0 hy1

theorem unitDraws_halves : UnitDraws halves := by
  intro n
  unfold halves
  refine ⟨⟨1, -1, by norm_num, by norm_num, by norm_num, ?_⟩, by norm_num, by norm_num⟩
  norm_num [abs_of_pos]

theorem fullGrid_allCells : FullGrid allCells := by
  intro c hc
  obtain ⟨⟨hx0, hx1⟩, hy0, hy1⟩ := hc
  have hxn : c.x.toNat < 30 := by omega
  have hyn : c.y.toNat < 30 := by omega
  unfold allCells
  rw [List.mem_flatMap]
  refine ⟨c.x.toNat, List.mem_range.2 hxn, ?_⟩
  rw [List.mem_map]
  refine ⟨c.y.toNat, List.mem_range.2 hyn, ?_⟩
  cases c with
  | mk x y =>
    simp only [Cell.mk.injEq, Int.ofNat_eq_coe] at *
    constructor <;> omega

/-- C13. `placeFood` returns (for enough fuel) if and only if some round of
the draws samples a cell that is off the snake.  When the snake covers all 900
cells of the grid, it returns for no fuel, whatever the double draws in
`[0, 1)` are: the loop has no other way out.  When some cell of the grid is
free, there are double draws in `[0, 1)` for which it returns. -/
theorem placeFood_returns_iff (s : State) :
    (∀ rand : Nat → ℚ, (∃ fuel s', placeFood rand fuel s = some s') ↔
      ∃ k, sample rand s.drawn k ∉ s.snake) ∧
    (FullGrid s.snake → ∀ rand : Nat → ℚ, UnitDraws rand →
      ∀ fuel, placeFood rand fuel s = none) ∧
    ((∃ c, inGrid c ∧ c ∉ s.snake) →
      ∃ rand : Nat → ℚ, UnitDraws rand ∧ ∃ fuel s', placeFood rand fuel s = some s') := by
  have hiff : ∀ rand : Nat → ℚ, (∃ fuel s', placeFood rand fuel s = some s') ↔
      ∃ k, sample rand s.drawn k ∉ s.snake := by
    intro rand
    constructor
    · rintro ⟨fuel, s', h⟩
      obtain ⟨k, -, -, hfree, -⟩ := placeFood_first_free rand fuel s s' h
      exact ⟨k, hfree⟩
    · intro hex
      classical
      have hfree := Nat.find_spec hex
      have hbusy : ∀ j, j < Nat.find hex → sample rand s.drawn j ∈ s.snake := by
        intro j hj
        by_contra hnot
        exact Nat.find_min hex hj hnot
      exact ⟨Nat.find hex + 1, _,
        placeFood_returns rand _ s (Nat.find hex) (by omega) hfree hbusy⟩
  refine ⟨hiff, ?_, ?_⟩
  · intro hfull rand hr fuel
    cases hp : placeFood rand fuel s with
    | none => rfl
    | some s' =>
      obtain ⟨k, hk⟩ := (hiff rand).1 ⟨fuel, s', hp⟩
      exact absurd (hfull _ (sample_inGrid rand hr s.drawn k)) hk
  · rintro ⟨c, hc, hfree⟩
    refine ⟨aimAt s.drawn c, unitDraws_aimAt s.drawn c hc, ?_⟩
    apply (hiff _).2
    exact ⟨0, by rw [sample_aimAt s.drawn c hc]; exact hfree⟩

/-- C13 at a snake that covers the whole grid: with every draw `1/2` the
placement has not returned after 5 rounds (nor after any other number). -/
theorem placeFood_returns_iff_witness :
    FullGrid crowded.snake ∧ ∀ fuel, placeFood halves fuel crowded = none :=
  ⟨fullGrid_allCells,
   (placeFood_returns_iff crowded).2.1 fullGrid_allCells halves unitDraws_halves⟩

/-! ## Start and restart -/

/-- C14. From every prior state, when `initGame` returns: the snake is
[(10,10),(10,11),(10,12)], the score 0, the committed and the pending direction
(0,-1), `isGameRunning` true, the food on no part of that snake, and a timer
with the period `currentSpeed` is active under the id stored in `gameLoopId`.
It returns (for enough fuel) exactly when some round of the draws samples a
cell off that snake.  Two runs that see the same draws end with the same snake,
score, directions and food, whatever the two prior states were. -/
theorem initGame_effect (rand : Nat → ℚ) (s0 : State) :
    (∀ fuel si, initGame rand fuel s0 = some si →
      si.snake = [⟨10, 10⟩, ⟨10, 11⟩, ⟨10, 12⟩] ∧ si.score = 0 ∧
      (si.dx, si.dy) = (0, -1) ∧ (si.nextDx, si.nextDy) = (0, -1) ∧
      si.isGameRunning = true ∧ si.food ∉ si.snake ∧
      ∃ id, id ≠ 0 ∧ si.gameLoopId = some id ∧
        (⟨id, s0.currentSpeed⟩ : Timer) ∈ si.timers ∧ timerActive si = true) ∧
    ((∃ fuel si, initGame rand fuel s0 = some si) ↔
      ∃ k, sample rand s0.drawn k ∉ startSnake) ∧
    (∀ (rand' : Nat → ℚ) (s0' : State) (fuel fuel' : Nat) (si si' : State),
      (∀ i, rand (s0.drawn + i) = rand' (s0'.drawn + i)) →
      initGame rand fuel s0 = some si → initGame rand' fuel' s0' = some si' →
      si'.snake = si.snake ∧ si'.score = si.score ∧
      (si'.dx, si'.dy) = (si.dx, si.dy) ∧ (si'.nextDx, si'.nextDy) = (si.nextDx, si.nextDy) ∧
      si'.food = si.food) := by
  refine ⟨?_, ?_, ?_⟩
  · intro fuel si h
    obtain ⟨k, -, hsi, hfree, -⟩ := initGame_spec rand fuel s0 si h
    subst hsi
    refine ⟨rfl, rfl, rfl, rfl, rfl, hfree, s0.lastTimerId + 1, by omega, rfl,
      List.mem_cons_self _ _, ?_⟩
    simp [timerActive, started]
  · constructor
    · rintro ⟨fuel, si, h⟩
      obtain ⟨k, -, -, hfree, -⟩ := initGame_spec rand fuel s0 si h
      exact ⟨k, hfree⟩
    · intro hex
      classical
      have hbusy : ∀ j, j < Nat.find hex → sample rand s0.drawn j ∈ startSnake := by
        intro j hj
        by_contra hnot
        exact Nat.find_min hex hj hnot
      exact ⟨Nat.find hex + 1, _,
        initGame_returns rand _ s0 (Nat.find hex) (by omega) (Nat.find_spec hex) hbusy⟩
  · intro rand' s0' fuel fuel' si si' hsame h h'
    obtain ⟨k, -, hsi, hfree, hbusy⟩ := initGame_spec rand fuel s0 si h
    obtain ⟨k', -, hsi', hfree', hbusy'⟩ := initGame_spec rand' fuel' s0' si' h'
    have hsample := sample_congr rand rand' s0.drawn s0'.drawn hsame
    have hkk : k' = k := by
      rcases Nat.lt_trichotomy k' k with hlt | heq | hgt
      · exact absurd (hsample k' ▸ hbusy k' hlt) hfree'
      · exact heq
      · exact absurd ((hsample k).symm ▸ hbusy' k hgt) hfree
    subst hsi
    subst hsi'
    refine ⟨rfl, rfl, rfl, rfl, ?_⟩
    simp only [started]
    rw [hkk, hsample k]

/-- C14 at two prior states: the freshly loaded page and a session in full
swing (7 parts, score 40, other directions, timer 3 running) both restart to
the same snake, score, directions and food, and the old timer is gone. -/
theorem initGame_effect_witness :
    initGame halves 1 loaded = some afterInit ∧
    ∃ si, initGame halves 1 midGame = some si ∧
      si.snake = afterInit.snake ∧ si.score = afterInit.score ∧
      (si.dx, si.dy) = (afterInit.dx, afterInit.dy) ∧
      (si.nextDx, si.nextDy) = (afterInit.nextDx, afterInit.nextDy) ∧
      si.food = afterInit.food ∧ si.timers = [⟨4, 50⟩] := by
  have h := (initGame_effect halves loaded).2.2 halves midGame 1 1 afterInit
    (started halves midGame 0) (fun _ => rfl) initGame_loaded (initGame_halves 0 midGame)
  exact ⟨initGame_loaded, started halves midGame 0, initGame_halves 0 midGame,
    h.1, h.2.1, h.2.2.1, h.2.2.2.1, h.2.2.2.2, by decide⟩

/-! ## Invariants of a session -/

theorem mem_of_mem_dropLast (l : List Cell) (c : Cell) (h : c ∈ l.dropLast) : c ∈ l :=
  (List.dropLast_sublist l).subset h

/-- C11. In every state of a session each part of the snake lies inside the
grid, and, when all random draws are doubles in `[0, 1)`, so does the food
cell: the rounded product `Math.random() * 30` stays below 30. -/
theorem cells_in_grid (rand : Nat → ℚ) (s : State) (h : Reachable rand s) :
    (∀ c ∈ s.snake, (0 ≤ c.x ∧ c.x < 30) ∧ (0 ≤ c.y ∧ c.y < 30)) ∧
    (UnitDraws rand → (0 ≤ s.food.x ∧ s.food.x < 30) ∧ (0 ≤ s.food.y ∧ s.food.y < 30)) := by
  revert s
  apply reachable_induction rand
    (fun s => (∀ c ∈ s.snake, inGrid c) ∧ (UnitDraws rand → inGrid s.food))
  · intro s0 fuel si hi
    obtain ⟨k, -, hsi, -⟩ := initGame_spec rand fuel s0 si hi
    subst hsi
    constructor
    · intro c hc
      simp only [started, startSnake, List.mem_cons, List.mem_singleton,
        List.not_mem_nil, or_false] at hc
      rcases hc with hc | hc | hc <;> subst hc <;> decide
    · intro hr
      exact sample_inGrid rand hr _ _
  · intro s k hinv
    obtain ⟨a, b, hk, -⟩ := keydown_frame k s
    rw [hk]
    exact hinv
  · intro s fuel s' ⟨hsn, hfd⟩ hup
    obtain ⟨part0, rest, hs, h1 | h1 | h1⟩ := update_ok_cases rand fuel s s' hup
    · have hg := gameOver_frame (commit s)
      have hc := commit_frame s
      rw [h1.2, hg.1, hc.1, hg.2.1, hc.2.1]
      exact ⟨hsn, hfd⟩
    · have hin : inGrid (newHead s part0) := by
        by_contra hout
        exact h1.1 (Or.inl hout)
      rw [h1.2.2]
      simp only [(commit_frame s).2.1]
      refine ⟨?_, hfd⟩
      intro c hc
      rcases List.mem_cons.1 hc with hc | hc
      · rw [hc]; exact hin
      · exact hsn c (mem_of_mem_dropLast _ _ hc)
    · have hin : inGrid (newHead s part0) := by
        by_contra hout
        exact h1.1 (Or.inl hout)
      obtain ⟨k, -, h3, -⟩ := placeFood_first_free rand fuel _ s' h1.2.2
      rw [h3]
      simp only
      refine ⟨?_, fun hr => sample_inGrid rand hr _ _⟩
      intro c hc
      rcases List.mem_cons.1 hc with hc | hc
      · rw [hc]; exact hin
      · exact hsn c hc

/-- C11 at a concrete session (start, Left, one tick, every draw `1/2`): the
three parts of the snake and the food (15,15) are inside the grid. -/
theorem cells_in_grid_witness :
    (∀ c ∈ afterTurn.snake, (0 ≤ c.x ∧ c.x < 30) ∧ (0 ≤ c.y ∧ c.y < 30)) ∧
    ((0 ≤ afterTurn.food.x ∧ afterTurn.food.x < 30) ∧
      (0 ≤ afterTurn.food.y ∧ afterTurn.food.y < 30)) :=
  ⟨(cells_in_grid halves afterTurn reachable_afterTurn).1,
   (cells_in_grid halves afterTurn reachable_afterTurn).2 unitDraws_halves⟩

/-- C15. In a session, a returning tick that does not end the game puts the
head exactly one step from the old head in the direction committed by that
tick, and that direction is one of (0,-1), (0,1), (-1,0), (1,0). -/
theorem head_moves_one_step (rand : Nat → ℚ) (s : State) (h : Reachable rand s)
    (fuel : Nat) (s' : State) (part0 : Cell) (rest : List Cell)
    (hs : s.snake = part0 :: rest) (hlive : ¬ Collides s part0)
    (hup : update rand fuel s = .ok s') :
    s'.snake.head? = some ⟨part0.x + s'.dx, part0.y + s'.dy⟩ ∧
    (s'.dx, s'.dy) = ((commit s).dx, (commit s).dy) ∧
    (s'.dx, s'.dy) ∈ unitSteps := by
  obtain ⟨hd1, hd2, -⟩ := update_direction rand fuel s s' hup
  obtain ⟨hu1, hu2⟩ := reachable_unit rand s h
  obtain ⟨-, hmove, heat⟩ := update_fields rand fuel s s' part0 rest hs hup
  have hhead : s'.snake.head? = some (newHead s part0) := by
    by_cases hfood : newHead s part0 = s.food
    · rw [(heat hlive hfood).1]; rfl
    · rw [(hmove hlive hfood).1]; rfl
  refine ⟨?_, ?_, ?_⟩
  · rw [hhead, hd1, hd2]; rfl
  · rw [hd1, hd2]
  · rw [hd1, hd2]; exact commit_unit s hu1 hu2

/-- C15 at a concrete session: after start and Left, the tick moves the head
from (10,10) to (9,10), one step in the committed direction (-1,0). -/
theorem head_moves_one_step_witness :
    afterTurn.snake.head? = some ⟨10 + afterTurn.dx, 10 + afterTurn.dy⟩ ∧
    (afterTurn.dx, afterTurn.dy) =
      ((commit (keydown "ArrowLeft" afterInit)).dx, (commit (keydown "ArrowLeft" afterInit)).dy) ∧
    (afterTurn.dx, afterTurn.dy) ∈ unitSteps :=
  head_moves_one_step halves (keydown "ArrowLeft" afterInit)
    ⟨loaded, afterInit, 1, initGame_loaded,
      Relation.ReflTransGen.tail Relation.ReflTransGen.refl (Step.key afterInit "ArrowLeft")⟩
    0 afterTurn ⟨10, 10⟩ [⟨10, 11⟩, ⟨10, 12⟩] rfl (by decide) (by rfl)

theorem placeFood_spec_aux (rand : Nat → ℚ) (fuel : Nat) (s s' : State)
    (h : placeFood rand fuel s = some s') : s'.food ∉ s'.snake := by
  obtain ⟨c, n, hs', hfree⟩ := placeFood_some rand fuel s s' h
  rw [hs']
  simp only
  rw [← onSnake_iff, Bool.not_eq_true]
  exact hfree

theorem dirInv_iff (s : State) :
    DirInv s ↔
      ((s.dx = 0 ∧ s.dy = -1) ∨ (s.dx = 0 ∧ s.dy = 1) ∨ (s.dx = -1 ∧ s.dy = 0) ∨
        (s.dx = 1 ∧ s.dy = 0)) ∧
      ((s.nextDx = 0 ∧ s.nextDy = -1) ∨ (s.nextDx = 0 ∧ s.nextDy = 1) ∨
        (s.nextDx = -1 ∧ s.nextDy = 0) ∨ (s.nextDx = 1 ∧ s.nextDy = 0)) ∧
      ¬ (s.nextDx = -s.dx ∧ s.nextDy = -s.dy) := by
  unfold DirInv unitSteps
  simp only [List.mem_cons, Prod.mk.injEq, List.mem_singleton, List.not_mem_nil, or_false,
    ne_eq]

/-- Under the direction invariant the test of `update` lets the commit through. -/
theorem commit_takes_pending (s : State) (h : DirInv s) :
    commit s = { s with dx := s.nextDx, dy := s.nextDy } := by
  rw [dirInv_iff] at h
  unfold commit
  rw [if_pos (by omega)]

/-- The five things the `keydown` listener can do, with the guard of each. -/
theorem keydown_cases (k : String) (s : State) :
    keydown k s = s ∨
    (s.dy ≠ 1 ∧ keydown k s = { s with nextDx := 0, nextDy := -1 }) ∨
    (s.dy ≠ -1 ∧ keydown k s = { s with nextDx := 0, nextDy := 1 }) ∨
    (s.dx ≠ 1 ∧ keydown k s = { s with nextDx := -1, nextDy := 0 }) ∨
    (s.dx ≠ -1 ∧ keydown k s = { s with nextDx := 1, nextDy := 0 }) := by
  unfold keydown
  split_ifs with h1 h2 h3 h4 h5 h6 h7 h8
  · exact Or.inr (Or.inl ⟨h2, rfl⟩)
  · exact Or.inl rfl
  · exact Or.inr (Or.inr (Or.inl ⟨h4, rfl⟩))
  · exact Or.inl rfl
  · exact Or.inr (Or.inr (Or.inr (Or.inl ⟨h6, rfl⟩)))
  · exact Or.inl rfl
  · exact Or.inr (Or.inr (Or.inr (Or.inr ⟨h8, rfl⟩)))
  · exact Or.inl rfl
  · exact Or.inl rfl

theorem keydown_dirInv (k : String) (s : State) (h : DirInv s) : DirInv (keydown k s) := by
  rcases keydown_cases k s with hk | ⟨hg, hk⟩ | ⟨hg, hk⟩ | ⟨hg, hk⟩ | ⟨hg, hk⟩
  · rw [hk]; exact h
  all_goals
    rw [hk]
    rw [dirInv_iff] at h ⊢
    obtain ⟨hd, -, -⟩ := h
    refine ⟨hd, ?_, ?_⟩
    · simp
    · simp only
      omega

theorem update_dirInv (rand : Nat → ℚ) (fuel : Nat) (s s' : State) (h : DirInv s)
    (hup : update rand fuel s = .ok s') :
    DirInv s' ∧ (s'.dx, s'.dy) = (s'.nextDx, s'.nextDy) := by
  obtain ⟨h1, h2, h3, h4⟩ := update_direction rand fuel s s' hup
  rw [commit_takes_pending s h] at h1 h2
  simp only at h1 h2
  rw [dirInv_iff] at h ⊢
  rw [h1, h2, h3, h4]
  refine ⟨⟨h.2.1, h.2.1, by omega⟩, rfl⟩

/-- C18. In every state of a session the committed and the pending direction
are each one of (0,-1), (0,1), (-1,0), (1,0) and pending is not the exact
reverse of committed; so the test of `update` lets every commit through
(committed becomes pending), and after every returning tick committed equals
pending. -/
theorem direction_invariant (rand : Nat → ℚ) (s : State) (h : Reachable rand s) :
    (s.dx, s.dy) ∈ unitSteps ∧ (s.nextDx, s.nextDy) ∈ unitSteps ∧
    (s.nextDx, s.nextDy) ≠ (-s.dx, -s.dy) ∧
    ((s.nextDx ≠ 0 ∧ s.nextDx ≠ -s.dx) ∨ (s.nextDy ≠ 0 ∧ s.nextDy ≠ -s.dy)) ∧
    commit s = { s with dx := s.nextDx, dy := s.nextDy } ∧
    ∀ fuel s', update rand fuel s = .ok s' → (s'.dx, s'.dy) = (s'.nextDx, s'.nextDy) := by
  have hinv : DirInv s := by
    revert s
    apply reachable_induction rand DirInv
    · intro s0 fuel si hi
      obtain ⟨k, -, hsi, -⟩ := initGame_spec rand fuel s0 si hi
      subst hsi
      exact ⟨by simp [started, unitSteps], by simp [started, unitSteps], by simp [started]⟩
    · intro s k hs
      exact keydown_dirInv k s hs
    · intro s fuel s' hs hup
      exact (update_dirInv rand fuel s s' hs hup).1
  refine ⟨hinv.1, hinv.2.1, hinv.2.2, ?_, commit_takes_pending s hinv,
    fun fuel s' hup => (update_dirInv rand fuel s s' hinv hup).2⟩
  have h2 := (dirInv_iff s).1 hinv
  omega

/-- C18 at a concrete session: after start, Left and one tick both slots hold
(-1,0). -/
theorem direction_invariant_witness :
    (afterTurn.dx, afterTurn.dy) ∈ unitSteps ∧ (afterTurn.nextDx, afterTurn.nextDy) ∈ unitSteps ∧
    (afterTurn.nextDx, afterTurn.nextDy) ≠ (-afterTurn.dx, -afterTurn.dy) :=
  ⟨(direction_invariant halves afterTurn reachable_afterTurn).1,
   (direction_invariant halves afterTurn reachable_afterTurn).2.1,
   (direction_invariant halves afterTurn reachable_afterTurn).2.2.1⟩

/-- C19. In every state of a session the score is ten times the number of
parts the snake has gained since the start: `score = 10 * (length - 3)`. -/
theorem score_tracks_length (rand : Nat → ℚ) (s : State) (h : Reachable rand s) :
    s.score = 10 * ((s.snake.length : Int) - 3) := by
  revert s
  apply reachable_induction rand (fun s => s.score = 10 * ((s.snake.length : Int) - 3))
  · intro s0 fuel si hi
    obtain ⟨k, -, hsi, -⟩ := initGame_spec rand fuel s0 si hi
    subst hsi
    rfl
  · intro s k hs
    obtain ⟨a, b, hk, -⟩ := keydown_frame k s
    rw [hk]
    exact hs
  · intro s fuel s' hinv hup
    obtain ⟨part0, rest, hs, -⟩ := update_ok_cases rand fuel s s' hup
    obtain ⟨hover, hmove, heat⟩ := update_fields rand fuel s s' part0 rest hs hup
    by_cases hend : Collides s part0
    · rw [(hover hend).1, (hover hend).2]
      exact hinv
    · by_cases hfood : newHead s part0 = s.food
      · rw [(heat hend hfood).1, (heat hend hfood).2, hinv, List.length_cons]
        push_cast
        ring
      · rw [(hmove hend hfood).1, (hmove hend hfood).2, hinv, List.length_cons,
          List.length_dropLast, hs, List.length_cons]
        simp

/-- C19 at a concrete session: after start, Left and one tick the score is 0
and the snake has 3 parts. -/
theorem score_tracks_length_witness :
    afterTurn.score = 10 * ((afterTurn.snake.length : Int) - 3) :=
  score_tracks_length halves afterTurn reachable_afterTurn

/-- C20. In every state of a session the food cell is on no part of the
snake: a plain move adds a head that is not the food and drops the tail, an
eating move places the new food after the head has been added, a game-over
tick changes neither. -/
theorem food_not_on_snake (rand : Nat → ℚ) (s : State) (h : Reachable rand s) :
    s.food ∉ s.snake := by
  revert s
  apply reachable_induction rand (fun s => s.food ∉ s.snake)
  · intro s0 fuel si hi
    exact (initGame_some rand fuel s0 si hi).2.2.2.2.2.2.2
  · intro s k hs
    obtain ⟨a, b, hk, -⟩ := keydown_frame k s
    rw [hk]
    exact hs
  · intro s fuel s' hinv hup
    obtain ⟨part0, rest, hs, h1 | h1 | h1⟩ := update_ok_cases rand fuel s s' hup
    · have hg := gameOver_frame (commit s)
      have hc := commit_frame s
      rw [h1.2, hg.1, hc.1, hg.2.1, hc.2.1]
      exact hinv
    · rw [h1.2.2]
      simp only [(commit_frame s).2.1]
      intro hmem
      rcases List.mem_cons.1 hmem with hm | hm
      · exact h1.2.1 hm.symm
      · exact hinv (mem_of_mem_dropLast _ _ hm)
    · exact (placeFood_spec_aux rand fuel _ s' h1.2.2)

/-- C20 at a concrete session: after start, Left and one tick the food (15,15)
is on none of (9,10), (10,10), (10,11). -/
theorem food_not_on_snake_witness : afterTurn.food ∉ afterTurn.snake :=
  food_not_on_snake halves afterTurn reachable_afterTurn

/-! ## The page: timers and menus -/

theorem play_reachable (rand : Nat → ℚ) (fuel : Nat) (es : List Event) (s s' : State)
    (hs : PageReachable rand s) (h : play rand fuel es s = some s') :
    PageReachable rand s' := by
  induction es generalizing s with
  | nil =>
    simp only [play, Option.some.injEq] at h
    exact h ▸ hs
  | cons e es ih =>
    simp only [play] at h
    split at h
    · rename_i s1 h1
      exact ih s1 (PageReachable.step s s1 e fuel hs h1) h
    · exact Option.noConfusion h

theorem play_cons_some (rand : Nat → ℚ) (fuel : Nat) (e : Event) (es : List Event)
    (s s1 : State) (h : handle rand fuel e s = some s1) :
    play rand fuel (e :: es) s = play rand fuel es s1 := by
  simp only [play, h]

theorem play_append_some (rand : Nat → ℚ) (fuel : Nat) (es es' : List Event) (s s1 : State)
    (h : play rand fuel es s = some s1) :
    play rand fuel (es ++ es') s = play rand fuel es' s1 := by
  induction es generalizing s with
  | nil =>
    simp only [play, Option.some.injEq] at h
    rw [List.nil_append, h]
  | cons e es ih =>
    simp only [play] at h
    split at h
    · rename_i s2 h2
      rw [List.cons_append, play_cons_some rand fuel e _ s s2 h2]
      exact ih s2 h
    · exact Option.noConfusion h

theorem crashTrace_plays : play halves 1 crashTrace loaded = some crashed :=
  (play_cons_some halves 1 .start _ loaded afterInit initGame_loaded).trans (by decide)

theorem crashTrace_restart :
    play halves 1 (crashTrace ++ [.restart]) loaded = some (started halves crashed 0) :=
  (play_append_some halves 1 crashTrace [.restart] loaded crashed crashTrace_plays).trans
    (play_cons_some halves 1 .restart [] crashed _ (initGame_halves 0 crashed))

theorem timerInv_same (s s' : State) (hid : s'.gameLoopId = s.gameLoopId)
    (ht : s'.timers = s.timers) (hr : s'.isGameRunning = s.isGameRunning) (h : TimerInv s) :
    TimerInv s' := by
  unfold TimerInv at h ⊢
  rw [hid, ht, hr]
  exact h

theorem timerInv_stopped (s s' : State) (hid : s'.gameLoopId = s.gameLoopId)
    (ht : s'.timers = []) (hr : s'.isGameRunning = false) (h : TimerInv s) :
    TimerInv s' := by
  unfold TimerInv at h ⊢
  rw [hid, ht, hr]
  refine ⟨h.1, ?_, ?_, fun _ => rfl⟩
  · intro t ht
    exact absurd ht (List.not_mem_nil t)
  · intro hf
    exact Bool.noConfusion hf

/-- Under the timer invariant `clearInterval(gameLoopId)` leaves no timer. -/
theorem clearInterval_timers (s : State) (h : TimerInv s) :
    (clearInterval s.gameLoopId s).timers = [] := by
  obtain ⟨-, hsub, -, -⟩ := h
  unfold clearInterval
  cases hid : s.gameLoopId with
  | none =>
    simp only
    rw [List.eq_nil_iff_forall_not_mem]
    intro t ht
    have := hsub t ht
    rw [hid] at this
    exact Option.noConfusion this
  | some n =>
    simp only
    rw [List.filter_eq_nil_iff]
    intro t ht
    have := hsub t ht
    rw [hid, Option.some.injEq] at this
    simp [this]

theorem timersAfterClear_nil (s : State) (h : TimerInv s) : timersAfterClear s = [] := by
  unfold timersAfterClear
  split
  · exact clearInterval_timers s h
  · rename_i hfalsy
    obtain ⟨hnz, hsub, -, -⟩ := h
    rw [List.eq_nil_iff_forall_not_mem]
    intro t ht
    have hid := hsub t ht
    apply hfalsy
    rw [hid]
    have := hnz _ hid
    simp [truthy, this]

theorem clearInterval_frame (id : Option Nat) (s : State) :
    (clearInterval id s).gameLoopId = s.gameLoopId ∧
    (clearInterval id s).isGameRunning = s.isGameRunning ∧
    (clearInterval id s).snake = s.snake ∧ (clearInterval id s).food = s.food ∧
    (clearInterval id s).score = s.score ∧ (clearInterval id s).dx = s.dx ∧
    (clearInterval id s).dy = s.dy ∧ (clearInterval id s).nextDx = s.nextDx ∧
    (clearInterval id s).nextDy = s.nextDy := by
  unfold clearInterval
  cases id <;> simp

theorem gameOver_timerInv (s : State) (h : TimerInv s) : TimerInv (gameOver s) := by
  have hf := clearInterval_frame s.gameLoopId { s with isGameRunning := false }
  have ht : (gameOver s).timers = [] := by
    have := clearInterval_timers s h
    unfold gameOver
    unfold clearInterval at this ⊢
    cases hid : s.gameLoopId with
    | none => rw [hid] at this; simpa using this
    | some n => rw [hid] at this; simpa using this
  exact timerInv_stopped s (gameOver s) hf.1 ht hf.2.1 h

theorem showMainMenu_timerInv (s : State) (h : TimerInv s) : TimerInv (showMainMenu s) := by
  have ht0 := timersAfterClear_nil s h
  unfold timersAfterClear at ht0
  unfold showMainMenu
  simp only
  split
  · rename_i htr
    rw [if_pos htr] at ht0
    have hf := clearInterval_frame s.gameLoopId { s with isGameRunning := false }
    refine timerInv_stopped s _ hf.1 ?_ hf.2.1 h
    unfold clearInterval at ht0 ⊢
    cases hid : s.gameLoopId with
    | none => rw [hid] at ht0; simpa using ht0
    | some n => rw [hid] at ht0; simpa using ht0
  · rename_i htr
    rw [if_neg htr] at ht0
    exact timerInv_stopped s _ rfl ht0 rfl h

theorem headerMenuClick_timerInv (s : State) (h : TimerInv s) :
    TimerInv (headerMenuClick s) := by
  have hm := showMainMenu_timerInv s h
  unfold headerMenuClick
  unfold showMainMenu at hm
  exact showMainMenu_timerInv _ hm

theorem initGame_timerInv (rand : Nat → ℚ) (fuel : Nat) (s s' : State) (h : TimerInv s)
    (hi : initGame rand fuel s = some s') : TimerInv s' := by
  obtain ⟨k, -, hs', -⟩ := initGame_spec rand fuel s s' hi
  subst hs'
  unfold TimerInv
  simp only [started, timersAfterClear_nil s h]
  refine ⟨?_, ?_, fun _ => ⟨_, rfl⟩, fun hf => Bool.noConfusion hf⟩
  · intro n hn
    simp only [Option.some.injEq] at hn
    omega
  · intro t ht
    rw [List.mem_singleton] at ht
    rw [ht]

theorem update_timerInv (rand : Nat → ℚ) (fuel : Nat) (s s' : State) (h : TimerInv s)
    (hup : update rand fuel s = .ok s') : TimerInv s' := by
  have hc := commit_frame s
  have hcommit : TimerInv (commit s) :=
    timerInv_same s (commit s) hc.2.2.2.2.2.1 hc.2.2.2.2.2.2.2.2.1 hc.2.2.2.2.2.2.1 h
  obtain ⟨part0, rest, -, h1 | h1 | h1⟩ := update_ok_cases rand fuel s s' hup
  · rw [h1.2]
    exact gameOver_timerInv _ hcommit
  · rw [h1.2.2]
    exact timerInv_same (commit s) _ rfl rfl rfl hcommit
  · obtain ⟨c, n, h3, -⟩ := placeFood_some rand fuel _ s' h1.2.2
    rw [h3]
    exact timerInv_same (commit s) _ rfl rfl rfl hcommit

theorem handle_timerInv (rand : Nat → ℚ) (fuel : Nat) (e : Event) (s s' : State)
    (h : TimerInv s) (he : handle rand fuel e s = some s') : TimerInv s' := by
  cases e with
  | start => exact initGame_timerInv rand fuel s s' h he
  | restart => exact initGame_timerInv rand fuel s s' h he
  | menu =>
    simp only [handle, Option.some.injEq] at he
    exact he ▸ showMainMenu_timerInv s h
  | headerMenu =>
    simp only [handle, Option.some.injEq] at he
    exact he ▸ headerMenuClick_timerInv s h
  | key k =>
    simp only [handle, Option.some.injEq] at he
    obtain ⟨a, b, hk, -⟩ := keydown_frame k s
    rw [← he, hk]
    exact timerInv_same s _ rfl rfl rfl h
  | tick =>
    simp only [handle] at he
    split at he
    · split at he
      · rename_i s1 hup
        simp only [Option.some.injEq] at he
        exact he ▸ update_timerInv rand fuel s s1 h hup
      · exact Option.noConfusion he
    · exact Option.noConfusion he
  | difficulty speed =>
    simp only [handle, Option.some.injEq] at he
    rw [← he]
    exact timerInv_same s _ rfl rfl rfl h

theorem pageReachable_timerInv (rand : Nat → ℚ) (s : State) (h : PageReachable rand s) :
    TimerInv s := by
  induction h with
  | loaded =>
    refine ⟨?_, ?_, ?_, fun _ => rfl⟩
    · intro n hn
      exact Option.noConfusion hn
    · intro t ht
      exact absurd ht (List.not_mem_nil t)
    · intro hf
      exact Bool.noConfusion hf
  | step s s' e fuel _ he ih => exact handle_timerInv rand fuel e s s' ih he

theorem clearInterval_idem (id : Option Nat) (s : State) :
    clearInterval id (clearInterval id s) = clearInterval id s := by
  unfold clearInterval
  cases id with
  | none => rfl
  | some n => simp [List.filter_filter]

/-- C16. In every state the page can reach by start, restart, the two menu
buttons, difficulty buttons, key presses and ticks, every active timer is the
one stored in `gameLoopId`; exactly one timer is active while `isGameRunning`
is true and none while it is false.  Stopping a stopped timer changes
nothing. -/
theorem one_scheduler (rand : Nat → ℚ) (s : State) (h : PageReachable rand s) :
    (∀ t ∈ s.timers, s.gameLoopId = some t.id) ∧
    (s.isGameRunning = true → ∃ t, s.timers = [t] ∧ s.gameLoopId = some t.id) ∧
    (s.isGameRunning = false → s.timers = []) ∧
    (∀ (id : Option Nat) (t : State),
      clearInterval id (clearInterval id t) = clearInterval id t) := by
  obtain ⟨-, hsub, hone, hnone⟩ := pageReachable_timerInv rand s h
  refine ⟨hsub, ?_, hnone, clearInterval_idem⟩
  intro hr
  obtain ⟨t, ht⟩ := hone hr
  exact ⟨t, ht, hsub t (by rw [ht]; exact List.mem_singleton_self t)⟩

/-- C16 at a concrete run: after start, Left and the eleven ticks that end at
the left wall no timer is active; a restart from there has exactly one. -/
theorem one_scheduler_witness :
    crashed.timers = [] ∧
    ∃ s, play halves 1 (crashTrace ++ [.restart]) loaded = some s ∧
      ∃ t, s.timers = [t] ∧ s.gameLoopId = some t.id :=
  ⟨(one_scheduler halves crashed
      (play_reachable halves 1 crashTrace loaded crashed PageReachable.loaded
        crashTrace_plays)).2.2.1 rfl,
   started halves crashed 0,
   crashTrace_restart,
   (one_scheduler halves (started halves crashed 0)
      (play_reachable halves 1 (crashTrace ++ [.restart]) loaded _ PageReachable.loaded
        crashTrace_restart)).2.1 rfl⟩

/-- C17, as the claim states it, fails: the session start, Left, eleven ticks
ends in a game-over state, and there the key Up changes the pending direction
from (-1,0) to (0,-1). -/
theorem key_after_game_over_changes_pending :
    play halves 1 crashTrace loaded = some crashed ∧ crashed.isGameRunning = false ∧
    ¬ ((keydown "ArrowUp" crashed).nextDx = crashed.nextDx ∧
       (keydown "ArrowUp" crashed).nextDy = crashed.nextDy) :=
  ⟨crashTrace_plays, rfl, by decide⟩

theorem timerActive_gameOver (s : State) : timerActive (gameOver s) = false := by
  unfold timerActive gameOver clearInterval
  cases hid : s.gameLoopId with
  | none => simp [hid]
  | some n => simp [hid]

theorem showMainMenu_frame (s : State) :
    (showMainMenu s).snake = s.snake ∧ (showMainMenu s).food = s.food ∧
    (showMainMenu s).score = s.score ∧ (showMainMenu s).dx = s.dx ∧
    (showMainMenu s).dy = s.dy ∧ (showMainMenu s).nextDx = s.nextDx ∧
    (showMainMenu s).nextDy = s.nextDy := by
  unfold showMainMenu
  simp only
  split
  · have hf := clearInterval_frame s.gameLoopId { s with isGameRunning := false }
    exact ⟨hf.2.2.1, hf.2.2.2.1, hf.2.2.2.2.1, hf.2.2.2.2.2.1, hf.2.2.2.2.2.2.1,
      hf.2.2.2.2.2.2.2.1, hf.2.2.2.2.2.2.2.2⟩
  · exact ⟨rfl, rfl, rfl, rfl, rfl, rfl, rfl⟩

/-- The header menu button clears the timer and then calls `showMainMenu`,
which does the same again. -/
theorem headerMenuClick_eq (s : State) :
    headerMenuClick s = showMainMenu (showMainMenu s) := rfl

/-- C17, amended.  In a game-over state, as in any state, a key event and both
return-to-menu buttons leave snake, food, score and the committed direction
unchanged; the menu buttons also leave the pending direction unchanged; a key
event changes at most the pending direction, to the unit step of an arrow key;
a difficulty button changes `currentSpeed` only.  Right after `gameOver` the
timer is inactive, so no tick follows. -/
theorem after_game_over_frame (s : State) (k : String) (speed : Int) :
    ((keydown k s).snake = s.snake ∧ (keydown k s).food = s.food ∧
      (keydown k s).score = s.score ∧ (keydown k s).dx = s.dx ∧ (keydown k s).dy = s.dy ∧
      (((keydown k s).nextDx, (keydown k s).nextDy) = (s.nextDx, s.nextDy) ∨
        ((keydown k s).nextDx, (keydown k s).nextDy) ∈ unitSteps)) ∧
    ((showMainMenu s).snake = s.snake ∧ (showMainMenu s).food = s.food ∧
      (showMainMenu s).score = s.score ∧ (showMainMenu s).dx = s.dx ∧
      (showMainMenu s).dy = s.dy ∧ (showMainMenu s).nextDx = s.nextDx ∧
      (showMainMenu s).nextDy = s.nextDy) ∧
    ((headerMenuClick s).snake = s.snake ∧ (headerMenuClick s).food = s.food ∧
      (headerMenuClick s).score = s.score ∧ (headerMenuClick s).dx = s.dx ∧
      (headerMenuClick s).dy = s.dy ∧ (headerMenuClick s).nextDx = s.nextDx ∧
      (headerMenuClick s).nextDy = s.nextDy) ∧
    difficultyClick speed s = { s with currentSpeed := speed } ∧
    timerActive (gameOver s) = false := by
  refine ⟨?_, showMainMenu_frame s, ?_, rfl, timerActive_gameOver s⟩
  · obtain ⟨a, b, hk, hab⟩ := keydown_frame k s
    rw [hk]
    exact ⟨rfl, rfl, rfl, rfl, rfl, hab⟩
  · have h1 := showMainMenu_frame s
    have h2 := showMainMenu_frame (showMainMenu s)
    rw [headerMenuClick_eq]
    exact ⟨h2.1.trans h1.1, h2.2.1.trans h1.2.1, h2.2.2.1.trans h1.2.2.1,
      h2.2.2.2.1.trans h1.2.2.2.1, h2.2.2.2.2.1.trans h1.2.2.2.2.1,
      h2.2.2.2.2.2.1.trans h1.2.2.2.2.2.1, h2.2.2.2.2.2.2.trans h1.2.2.2.2.2.2⟩

theorem showMainMenu_stopped (s : State) : (showMainMenu s).isGameRunning = false := by
  unfold showMainMenu
  simp only
  split
  · exact (clearInterval_frame _ _).2.1
  · rfl

theorem showMainMenu_timers (s : State) (h : TimerInv s) : (showMainMenu s).timers = [] :=
  (showMainMenu_timerInv s h).2.2.2 (showMainMenu_stopped s)

theorem update_snake_ne_nil (rand : Nat → ℚ) (fuel : Nat) (s s' : State)
    (hup : update rand fuel s = .ok s') : s'.snake ≠ [] := by
  obtain ⟨part0, rest, hs, -⟩ := update_ok_cases rand fuel s s' hup
  obtain ⟨hover, hmove, heat⟩ := update_fields rand fuel s s' part0 rest hs hup
  by_cases hend : Collides s part0
  · rw [(hover hend).1, hs]
    exact List.cons_ne_nil _ _
  · by_cases hfood : newHead s part0 = s.food
    · rw [(heat hend hfood).1]
      exact List.cons_ne_nil _ _
    · rw [(hmove hend hfood).1]
      exact List.cons_ne_nil _ _

/-- While a timer is active the snake is not empty, so no tick the page can
see fails on reading `snake[0]`. -/
theorem pageReachable_tick_safe (rand : Nat → ℚ) (s : State) (h : PageReachable rand s) :
    timerActive s = true → ∀ fuel, update rand fuel s ≠ .error .typeError := by
  have hq : s.snake ≠ [] ∨ s.timers = [] := by
    induction h with
    | loaded => exact Or.inr rfl
    | step s s' e fuel hs he ih =>
      have hinv := pageReachable_timerInv rand s hs
      cases e with
      | start =>
        obtain ⟨k, -, hs', -⟩ := initGame_spec rand fuel s s' he
        exact Or.inl (by rw [hs']; exact List.cons_ne_nil _ _)
      | restart =>
        obtain ⟨k, -, hs', -⟩ := initGame_spec rand fuel s s' he
        exact Or.inl (by rw [hs']; exact List.cons_ne_nil _ _)
      | menu =>
        simp only [handle, Option.some.injEq] at he
        rw [← he]
        exact Or.inr (showMainMenu_timers s hinv)
      | headerMenu =>
        simp only [handle, Option.some.injEq] at he
        rw [← he, headerMenuClick_eq]
        exact Or.inr (showMainMenu_timers _ (showMainMenu_timerInv s hinv))
      | key k =>
        simp only [handle, Option.some.injEq] at he
        obtain ⟨a, b, hk, -⟩ := keydown_frame k s
        rw [← he, hk]
        exact ih
      | tick =>
        simp only [handle] at he
        split at he
        · split at he
          · rename_i s1 hup
            simp only [Option.some.injEq] at he
            exact Or.inl (he ▸ update_snake_ne_nil rand fuel s s1 hup)
          · exact Option.noConfusion he
        · exact Option.noConfusion he
      | difficulty speed =>
        simp only [handle, Option.some.injEq] at he
        rw [← he]
        exact ih
  intro hact fuel
  rcases hq with hne | hnil
  · exact update_no_typeError rand fuel s hne
  · unfold timerActive at hact
    rw [hnil] at hact
    cases hid : s.gameLoopId with
    | none => rw [hid] at hact; exact Bool.noConfusion hact
    | some n => rw [hid] at hact; simp at hact

end SnakeGame
